import Mathlib

/-!
Verification of the MiniCAD floor-plan editor core: the graph data model
(vertices, walls, rooms, symbols, instances keyed by string ids), the
command/undo/redo engine of `editorStore.js` and the command classes, and the
derived-geometry utilities (`geometry.js`, `roomUtils.js`, `instanceUtils.js`,
`snapping.js`).

Modelling conventions:
- JavaScript numbers are idealised: coordinates, offsets and areas stored in
  the data model are rationals (`ℚ`); derived Euclidean quantities (distance,
  wall length, instance pose, snap distances) live in `ℝ` because the source
  uses `Math.sqrt` / `Math.atan2`.
- A JavaScript object used as an id-keyed table is a `Finmap` from `String`:
  `{...obj, [k]: v}` is `insert` (replacing), `delete obj[k]` is `erase`, and
  table equality is key-value equality (JS key insertion order is irrelevant
  to every property treated here).
- `Object.values(t).some(p)` is the decidable existential over the entries of
  the finmap.
-/

abbrev EntId := String

/-- A vertex record `{x, y}` (coordinates in mm). -/
structure Vertex where
  x : ℚ
  y : ℚ
deriving DecidableEq

/-- A wall record `{vStart, vEnd, thickness, isOuter}` referencing vertex ids. -/
structure Wall where
  vStart : EntId
  vEnd : EntId
  thickness : ℚ
  isOuter : Bool
deriving DecidableEq

/-- A room record `{name, vertices, type, area}`; `vertices` is the ordered
list of vertex ids and `area` the cached area field. -/
structure Room where
  name : String
  vertices : List EntId
  type : String
  area : ℚ
deriving DecidableEq

/-- The `attachTo: {kind, id}` part of an instance constraint. -/
structure AttachTo where
  kind : String
  id : EntId
deriving DecidableEq

/-- An instance constraint `{attachTo, offsetFromStart}`. `attachTo` is
optional because a JS spread of a null constraint produces an object holding
only `offsetFromStart` (see `MoveInstanceCommand`). -/
structure Constr where
  attachTo : Option AttachTo
  offsetFromStart : ℚ
deriving DecidableEq

/-- A free-placement transform `{position, rotation}` (rotation in degrees). -/
structure Transf where
  position : ℚ × ℚ
  rotation : ℚ
deriving DecidableEq

/-- Instance props `{width, label}`. -/
structure Props where
  width : ℚ
  label : String
deriving DecidableEq

/-- A placed instance `{symbol, constraint, transform, props}`. -/
structure Instc where
  symbol : EntId
  constraint : Option Constr
  transform : Option Transf
  props : Props
deriving DecidableEq

/-- A symbol template; commands never read its payload, so only the
discriminating fields are modelled. -/
structure SymbolDef where
  type : String
  anchor : Option String
deriving DecidableEq

/-- An id-keyed table (a JS object used as a map). -/
abbrev Table (V : Type) := Finmap (fun _ : EntId => V)

instance (m : Multiset α) (p : α → Prop) [DecidablePred p] :
    Decidable (∃ x ∈ m, p x) :=
  Multiset.decidableExistsMultiset

/-- `Object.values(rooms).some(room => room.vertices.includes(vId))` from
`AddRoomCommand.undo`. -/
def someRoomUses (rooms : Table Room) (vId : EntId) : Prop :=
  ∃ e ∈ rooms.entries, vId ∈ e.2.vertices

instance (rooms : Table Room) (vId : EntId) : Decidable (someRoomUses rooms vId) := by
  unfold someRoomUses; infer_instance

/-- `Object.values(walls).some(wall => wall.vStart === vId || wall.vEnd === vId)`
from `AddRoomCommand.undo` / `AddWallCommand.undo`. -/
def someWallUses (walls : Table Wall) (vId : EntId) : Prop :=
  ∃ e ∈ walls.entries, e.2.vStart = vId ∨ e.2.vEnd = vId

instance (walls : Table Wall) (vId : EntId) : Decidable (someWallUses walls vId) := by
  unfold someWallUses; infer_instance

/-- `if (!newVertices[id]) newVertices[id] = data` — insert only when the key
is absent (used by `AddRoomCommand.execute` and `AddWallCommand.execute`). -/
def addVertexIfAbsent (t : Table Vertex) (i : EntId) (v : Vertex) : Table Vertex :=
  if i ∈ t then t else t.insert i v

/-- The payload of a `DeleteCommand`: the `objectType` tag together with the
backup `objectData` used by `undo` (one case per supported type; the source's
`default:` branch only warns and is a table no-op). -/
inductive DelTarget
  | droom (data : Room)
  | dwall (data : Wall)
  | dinstance (data : Instc)
  | dvertex (data : Vertex)
deriving DecidableEq

/-- The `objectType` string restored into `selectedType` by `DeleteCommand.undo`. -/
def DelTarget.typeName : DelTarget → String
  | .droom _ => "room"
  | .dwall _ => "wall"
  | .dinstance _ => "instance"
  | .dvertex _ => "vertex"

/-- The concrete command classes: `MoveVertexCommand`, `AddWallCommand`,
`AddRoomCommand`, `AddInstanceCommand`, `DeleteCommand`, `MoveInstanceCommand`,
each carrying exactly the constructor payload of its JS class. -/
inductive Command
  | moveVertex (vertexId : EntId) (oldPosition newPosition : Vertex)
  | addWall (wallId v1Id v2Id : EntId) (v1Data v2Data : Vertex) (wallData : Wall)
  | addRoom (roomId : EntId) (vertexIds : List EntId) (vertexData : List Vertex)
      (roomData : Room)
  | addInstance (instanceId : EntId) (instanceData : Instc)
  | del (objectId : EntId) (target : DelTarget)
  | moveInstance (instanceId : EntId) (oldOffset newOffset : ℚ)
deriving DecidableEq

/-- The slice of the Zustand store the command/history engine touches: the
five entity tables, the selection fields written by `DeleteCommand`, and the
history fields of `editorStore.js`. `historyIndex` is an integer because its
initial value is `-1`. -/
structure EditorState where
  vertices : Table Vertex
  walls : Table Wall
  rooms : Table Room
  symbols : Table SymbolDef
  instances : Table Instc
  selectedIds : List EntId
  selectedType : Option String
  commandHistory : List Command
  historyIndex : ℤ
deriving DecidableEq

/-- The five entity tables of a state, in the order vertices, walls, rooms,
symbols, instances. -/
def EditorState.tables (s : EditorState) :
    Table Vertex × Table Wall × Table Room × Table SymbolDef × Table Instc :=
  (s.vertices, s.walls, s.rooms, s.symbols, s.instances)

/-- `{...instance.constraint, offsetFromStart: o}`: a JS spread of a null
constraint contributes no `attachTo`. -/
def spreadConstraint (c : Option Constr) (o : ℚ) : Constr :=
  { attachTo := match c with
      | some c0 => c0.attachTo
      | none => none,
    offsetFromStart := o }

/-- `execute(get, set)` of each command class, as a function on the store
slice. `MoveVertexCommand`/`MoveInstanceCommand` are no-ops when the target id
is missing (the source logs a warning and returns). -/
def Command.exec : Command → EditorState → EditorState
  | .moveVertex vertexId _old new, s =>
    match s.vertices.lookup vertexId with
    | none => s
    | some v =>
      { s with vertices := s.vertices.insert vertexId ({ v with x := new.x, y := new.y }) }
  | .addWall wallId v1Id v2Id v1Data v2Data wallData, s =>
    let newVertices := addVertexIfAbsent (addVertexIfAbsent s.vertices v1Id v1Data) v2Id v2Data
    { s with vertices := newVertices, walls := s.walls.insert wallId wallData }
  | .addRoom roomId vertexIds vertexData roomData, s =>
    let newVertices := (vertexIds.zip vertexData).foldl
      (fun t p => addVertexIfAbsent t p.1 p.2) s.vertices
    { s with vertices := newVertices, rooms := s.rooms.insert roomId roomData }
  | .addInstance instanceId instanceData, s =>
    { s with instances := s.instances.insert instanceId instanceData }
  | .del objectId target, s =>
    let s1 := match target with
      | .droom _ => { s with rooms := s.rooms.erase objectId }
      | .dwall _ => { s with walls := s.walls.erase objectId }
      | .dinstance _ => { s with instances := s.instances.erase objectId }
      | .dvertex _ => { s with vertices := s.vertices.erase objectId }
    { s1 with selectedIds := [], selectedType := none }
  | .moveInstance instanceId _oldOffset newOffset, s =>
    match s.instances.lookup instanceId with
    | none => s
    | some inst =>
      let inst1 : Instc :=
        { inst with constraint := some (spreadConstraint inst.constraint newOffset) }
      { s with instances := s.instances.insert instanceId inst1 }

/-- `undo(get, set)` of each command class. `AddRoomCommand.undo` and
`AddWallCommand.undo` garbage-collect the command's vertex ids that are no
longer referenced (rooms-and-walls for add-room, walls only for add-wall). -/
def Command.undoCmd : Command → EditorState → EditorState
  | .moveVertex vertexId old _new, s =>
    match s.vertices.lookup vertexId with
    | none => s
    | some v =>
      { s with vertices := s.vertices.insert vertexId ({ v with x := old.x, y := old.y }) }
  | .addWall wallId v1Id v2Id _v1Data _v2Data _wallData, s =>
    let newWalls := s.walls.erase wallId
    let v1Used := someWallUses newWalls v1Id
    let v2Used := someWallUses newWalls v2Id
    let nv1 := if v1Used then s.vertices else s.vertices.erase v1Id
    let nv2 := if v2Used then nv1 else nv1.erase v2Id
    { s with vertices := nv2, walls := newWalls }
  | .addRoom roomId vertexIds _vertexData _roomData, s =>
    let newRooms := s.rooms.erase roomId
    let newVertices := vertexIds.foldl
      (fun t vId =>
        if someRoomUses newRooms vId ∨ someWallUses s.walls vId then t else t.erase vId)
      s.vertices
    { s with vertices := newVertices, rooms := newRooms }
  | .addInstance instanceId _instanceData, s =>
    { s with instances := s.instances.erase instanceId }
  | .del objectId target, s =>
    let s1 := match target with
      | .droom d => { s with rooms := s.rooms.insert objectId d }
      | .dwall d => { s with walls := s.walls.insert objectId d }
      | .dinstance d => { s with instances := s.instances.insert objectId d }
      | .dvertex d => { s with vertices := s.vertices.insert objectId d }
    { s1 with selectedIds := [objectId], selectedType := some target.typeName }
  | .moveInstance instanceId oldOffset _newOffset, s =>
    match s.instances.lookup instanceId with
    | none => s
    | some inst =>
      let inst1 : Instc :=
        { inst with constraint := some (spreadConstraint inst.constraint oldOffset) }
      { s with instances := s.instances.insert instanceId inst1 }

/-- `redo` re-invokes the command's execute logic: the base `Command.redo`
calls `this.execute`, and the two overrides (`AddRoomCommand`,
`AddWallCommand`) do exactly the same. -/
def Command.redoCmd (c : Command) (s : EditorState) : EditorState :=
  c.exec s

/-- `executeCommand` of `editorStore.js`: run the command, truncate the
history after the cursor, append, and point the cursor at the new end. (For
every state considered here `historyIndex ≥ -1`, so the JS
`slice(0, historyIndex + 1)` is `take (historyIndex + 1)`.) -/
def executeCommand (c : Command) (s : EditorState) : EditorState :=
  let s1 := c.exec s
  let newHistory := s.commandHistory.take (s.historyIndex + 1).toNat ++ [c]
  { s1 with commandHistory := newHistory,
            historyIndex := (newHistory.length : ℤ) - 1 }

/-- `undo` of `editorStore.js`: no-op when the cursor is before the first
entry, otherwise run the current command's undo and move the cursor back.
For reachable states the cursor is in range, so the `none` branch is dead. -/
def undoStore (s : EditorState) : EditorState :=
  if s.historyIndex < 0 then s
  else
    match s.commandHistory.get? s.historyIndex.toNat with
    | some c => { c.undoCmd s with historyIndex := s.historyIndex - 1 }
    | none => { s with historyIndex := s.historyIndex - 1 }

/-- `redo` of `editorStore.js`: no-op when the cursor is at the end,
otherwise re-run the next command and advance the cursor. -/
def redoStore (s : EditorState) : EditorState :=
  if (s.commandHistory.length : ℤ) - 1 ≤ s.historyIndex then s
  else
    match s.commandHistory.get? (s.historyIndex + 1).toNat with
    | some c => { c.redoCmd s with historyIndex := s.historyIndex + 1 }
    | none => { s with historyIndex := s.historyIndex + 1 }

/-- `canUndo` of `editorStore.js`. -/
def canUndo (s : EditorState) : Bool :=
  decide (0 ≤ s.historyIndex)

/-- `canRedo` of `editorStore.js`. -/
def canRedo (s : EditorState) : Bool :=
  decide (s.historyIndex < (s.commandHistory.length : ℤ) - 1)

/-- A loadable document `{units, vertices, walls, rooms, symbols, instances}`
(missing tables already defaulted to empty). -/
structure Document where
  units : String
  vertices : Table Vertex
  walls : Table Wall
  rooms : Table Room
  symbols : Table SymbolDef
  instances : Table Instc

/-- `loadJSON` of `editorStore.js`: replace the tables, clear the selection
and the history. -/
def loadJSON (d : Document) : EditorState :=
  { vertices := d.vertices, walls := d.walls, rooms := d.rooms,
    symbols := d.symbols, instances := d.instances,
    selectedIds := [], selectedType := none,
    commandHistory := [], historyIndex := -1 }

/-- States reachable from a loaded document through the store's command
engine. -/
inductive Reachable : EditorState → Prop
  | load (d : Document) : Reachable (loadJSON d)
  | exec (c : Command) {s : EditorState} : Reachable s → Reachable (executeCommand c s)
  | undoStep {s : EditorState} : Reachable s → Reachable (undoStore s)
  | redoStep {s : EditorState} : Reachable s → Reachable (redoStore s)

/-- The shoelace accumulator of `calculateArea` in `geometry.js`: the loop sum
of `p[i].x * p[j].y - p[j].x * p[i].y` with `j = (i+1) % n`. Out-of-range
defaults are never read because every index is below the length. -/
def shoelaceSum (polygon : List (ℚ × ℚ)) : ℚ :=
  ∑ i in Finset.range polygon.length,
    ((polygon.getD i (0, 0)).1 * (polygon.getD ((i + 1) % polygon.length) (0, 0)).2
      - (polygon.getD ((i + 1) % polygon.length) (0, 0)).1 * (polygon.getD i (0, 0)).2)

/-- `Math.abs` on rationals, written with an executable comparison. -/
def ratAbs (q : ℚ) : ℚ :=
  if q < 0 then -q else q

/-- `calculateArea` of `geometry.js`: 0 for fewer than 3 points, otherwise the
absolute value of half the shoelace sum. -/
def calculateArea (polygon : List (ℚ × ℚ)) : ℚ :=
  if polygon.length < 3 then 0 else ratAbs (shoelaceSum polygon / 2)

/-- `calculateRoomArea` of `roomUtils.js`: map vertex ids to points, drop the
missing ones, and apply `calculateArea` when at least 3 points survive. -/
def calculateRoomArea (room : Room) (vertices : Table Vertex) : ℚ :=
  if room.vertices.length < 3 then 0
  else
    let polygon := room.vertices.filterMap fun vId =>
      (vertices.lookup vId).map fun v => (v.x, v.y)
    if polygon.length < 3 then 0 else calculateArea polygon

/-- `recalculateAllRoomAreas` of `roomUtils.js`, over the entry list of the
rooms table (`Object.entries`): rebuild every room with a freshly computed
`area`. -/
def recalculateAllRoomAreas (rooms : List (EntId × Room)) (vertices : Table Vertex) :
    List (EntId × Room) :=
  rooms.map fun e => (e.1, { e.2 with area := calculateRoomArea e.2 vertices })

/-- `distance` of `geometry.js` (JS floats idealised as reals). -/
noncomputable def distance (p1 p2 : ℝ × ℝ) : ℝ :=
  Real.sqrt ((p2.1 - p1.1) * (p2.1 - p1.1) + (p2.2 - p1.2) * (p2.2 - p1.2))

/-- `Math.atan2`, idealised: the angle of the vector `(x, y)` in `(-π, π]`,
with `atan2 0 0 = 0`. -/
noncomputable def atan2 (y x : ℝ) : ℝ :=
  if 0 < x then Real.arctan (y / x)
  else if x < 0 then
    (if 0 ≤ y then Real.arctan (y / x) + Real.pi else Real.arctan (y / x) - Real.pi)
  else
    (if 0 < y then Real.pi / 2 else if y < 0 then -(Real.pi / 2) else 0)

/-- `angleBetweenPoints` of `geometry.js`. -/
noncomputable def angleBetweenPoints (p1 p2 : ℝ × ℝ) : ℝ :=
  atan2 (p2.2 - p1.2) (p2.1 - p1.1)

/-- The real-valued point of a vertex record. -/
def Vertex.pt (v : Vertex) : ℝ × ℝ :=
  ((v.x : ℝ), (v.y : ℝ))

/-- `calculateWallLength` of `instanceUtils.js`: 0 when either endpoint is
missing, otherwise the Euclidean distance of the endpoints. -/
noncomputable def calculateWallLength (wall : Wall) (vertices : Table Vertex) : ℝ :=
  match vertices.lookup wall.vStart, vertices.lookup wall.vEnd with
  | some a, some b => distance a.pt b.pt
  | _, _ => 0

/-- `clampOffsetToWall` of `instanceUtils.js`:
`max(width/2, min(wallLength - width/2, offset))`. -/
noncomputable def clampOffsetToWall (offset wallLength instanceWidth : ℝ) : ℝ :=
  max (instanceWidth / 2) (min (wallLength - instanceWidth / 2) offset)

/-- The `{position, rotation}` result of `calculateInstancePosition`. -/
structure Pose where
  position : ℝ × ℝ
  rotation : ℝ

/-- The `else if (instance.transform)` branch of `calculateInstancePosition`
plus the final default: free placement, rotation converted from degrees to
radians. -/
noncomputable def freePose (inst : Instc) : Pose :=
  match inst.transform with
  | some t => ⟨((t.position.1 : ℝ), (t.position.2 : ℝ)), (t.rotation : ℝ) * Real.pi / 180⟩
  | none => ⟨(0, 0), 0⟩

open Classical in
/-- `calculateInstancePosition` of `instanceUtils.js`: for a wall-anchored
instance, linear interpolation along the wall at `offsetFromStart / wallLength`
with rotation `angleBetweenPoints vStart vEnd`; start vertex with rotation 0
for a zero-length wall; `(0,0)` rotation 0 for missing wall/vertices or a
non-wall anchor kind; the free/transform branch otherwise. -/
noncomputable def calculateInstancePosition (inst : Instc) (walls : Table Wall)
    (vertices : Table Vertex) : Pose :=
  match inst.constraint with
  | some c =>
    match c.attachTo with
    | some att =>
      if att.kind = "wall" then
        match walls.lookup att.id with
        | none => ⟨(0, 0), 0⟩
        | some wall =>
          match vertices.lookup wall.vStart, vertices.lookup wall.vEnd with
          | some vS, some vE =>
            let wallLength := distance vS.pt vE.pt
            if wallLength = 0 then ⟨vS.pt, 0⟩
            else
              let t := (c.offsetFromStart : ℝ) / wallLength
              ⟨(vS.pt.1 + t * (vE.pt.1 - vS.pt.1), vS.pt.2 + t * (vE.pt.2 - vS.pt.2)),
                angleBetweenPoints vS.pt vE.pt⟩
          | _, _ => ⟨(0, 0), 0⟩
      else ⟨(0, 0), 0⟩
    | none => freePose inst
  | none => freePose inst

/-- A snap target of `snapping.js`: a candidate point with its provenance. -/
structure SnapTarget where
  type : String
  point : ℝ × ℝ
  entityType : String
  entityId : String

open Classical in
/-- The loop of `findSnapPoint`: the accumulator holds the current
`closestSnap` with its `minDistance` (`none` models the initial
`minDistance = Infinity`), and a target replaces it exactly when its distance
is strictly below the threshold and strictly below the current minimum. -/
noncomputable def snapFold (mousePos : ℝ × ℝ) (threshold : ℝ) :
    List SnapTarget → Option (SnapTarget × ℝ) → Option (SnapTarget × ℝ)
  | [], acc => acc
  | t :: rest, acc =>
    let dist := distance mousePos t.point
    if dist < threshold ∧ ∀ m ∈ acc, dist < m.2 then
      snapFold mousePos threshold rest (some (t, dist))
    else
      snapFold mousePos threshold rest acc

/-- `findSnapPoint` of `snapping.js`: linear scan keeping the closest target
strictly within the threshold. -/
noncomputable def findSnapPoint (mousePos : ℝ × ℝ) (targets : List SnapTarget)
    (threshold : ℝ) : Option SnapTarget :=
  (snapFold mousePos threshold targets none).map Prod.fst

/-- Conditions under which a command, executed on `s` through the store, is
undone exactly (the spec's `undo(execute(C, S)) == S`): stored old values
match the current state and the ids created by add-commands are fresh and
unreferenced. The counterexample for C1 shows the round trip genuinely fails
without them. -/
def Command.wfUndo : Command → EditorState → Prop
  | .moveVertex vertexId old _new, s =>
    match s.vertices.lookup vertexId with
    | none => True
    | some v => v.x = old.x ∧ v.y = old.y
  | .addWall wallId v1Id v2Id _v1Data _v2Data _wallData, s =>
    wallId ∉ s.walls ∧ v1Id ∉ s.vertices ∧ v2Id ∉ s.vertices ∧
      ¬someWallUses s.walls v1Id ∧ ¬someWallUses s.walls v2Id
  | .addRoom roomId vertexIds _vertexData _roomData, s =>
    roomId ∉ s.rooms ∧
      ∀ vId ∈ vertexIds,
        vId ∉ s.vertices ∧ ¬someRoomUses s.rooms vId ∧ ¬someWallUses s.walls vId
  | .addInstance instanceId _instanceData, s => instanceId ∉ s.instances
  | .del objectId target, s =>
    match target with
    | .droom d => s.rooms.lookup objectId = some d
    | .dwall d => s.walls.lookup objectId = some d
    | .dinstance d => s.instances.lookup objectId = some d
    | .dvertex d => s.vertices.lookup objectId = some d
  | .moveInstance instanceId oldOffset _newOffset, s =>
    match s.instances.lookup instanceId with
    | none => True
    | some inst =>
      match inst.constraint with
      | none => False
      | some c => c.offsetFromStart = oldOffset

instance (c : Command) (s : EditorState) : Decidable (c.wfUndo s) := by
  cases c with
  | moveVertex vertexId old new =>
    simp only [Command.wfUndo]
    cases s.vertices.lookup vertexId <;> infer_instance
  | addWall wallId v1Id v2Id v1Data v2Data wallData =>
    simp only [Command.wfUndo]; infer_instance
  | addRoom roomId vertexIds vertexData roomData =>
    simp only [Command.wfUndo]; infer_instance
  | addInstance instanceId instanceData =>
    simp only [Command.wfUndo]; infer_instance
  | del objectId target =>
    simp only [Command.wfUndo]
    cases target <;> infer_instance
  | moveInstance instanceId oldOffset newOffset =>
    simp only [Command.wfUndo]
    cases s.instances.lookup instanceId with
    | none => infer_instance
    | some inst =>
      show Decidable (match inst.constraint with
        | none => False
        | some c => c.offsetFromStart = oldOffset)
      cases inst.constraint <;> infer_instance

/-- Conditions under which re-executing after an undo reproduces the executed
state (the spec's `redo(undo(execute(C,S))) == execute(C,S)`): only the two
add-commands that garbage-collect vertices on undo need their vertex ids to
be fresh; every other command satisfies the property unconditionally. -/
def Command.wfRedo : Command → EditorState → Prop
  | .addWall _wallId v1Id v2Id _v1Data _v2Data _wallData, s =>
    v1Id ∉ s.vertices ∧ v2Id ∉ s.vertices
  | .addRoom _roomId vertexIds _vertexData _roomData, s =>
    ∀ vId ∈ vertexIds, vId ∉ s.vertices
  | _, _ => True

instance (c : Command) (s : EditorState) : Decidable (c.wfRedo s) := by
  cases c <;> simp only [Command.wfRedo] <;> infer_instance

/-- An empty document. -/
def emptyDoc : Document :=
  ⟨"mm", ∅, ∅, ∅, ∅, ∅⟩

/-- A state with one vertex `v1` that is referenced by room `r1` and by no
wall. Undoing an added wall that reuses `v1` deletes `v1` even though the
room still references it, because `AddWallCommand.undo` consults only walls. -/
def exStateWallGC : EditorState :=
  { vertices := Finmap.singleton "v1" ⟨0, 0⟩,
    walls := ∅,
    rooms := Finmap.singleton "r1" ⟨"A", ["v1"], "living", 0⟩,
    symbols := ∅, instances := ∅,
    selectedIds := [], selectedType := none,
    commandHistory := [], historyIndex := -1 }

/-- A wall from `v1` to `v2` reusing the pre-existing vertex `v1`. -/
def exCmdAddWall : Command :=
  .addWall "w1" "v1" "v2" ⟨0, 0⟩ ⟨1000, 0⟩ ⟨"v1", "v2", 200, true⟩

/-- A state with one orphan vertex `v1` at `(5,5)` (present in the vertex
table, referenced by nothing). -/
def exStateOrphan : EditorState :=
  { vertices := Finmap.singleton "v1" ⟨5, 5⟩,
    walls := ∅, rooms := ∅, symbols := ∅, instances := ∅,
    selectedIds := [], selectedType := none,
    commandHistory := [], historyIndex := -1 }

/-- An add-room command that lists the pre-existing `v1` with different
payload coordinates `(0,0)`. -/
def exCmdAddRoom : Command :=
  .addRoom "r1" ["v1"] [⟨0, 0⟩] ⟨"B", ["v1"], "living", 0⟩

/-- A wall `w1` between two vertices `a`, `b` that no other entity
references. -/
def exStateLoneWall : EditorState :=
  { vertices := (Finmap.singleton "a" ⟨0, 0⟩).insert "b" ⟨1000, 0⟩,
    walls := Finmap.singleton "w1" ⟨"a", "b", 200, true⟩,
    rooms := ∅, symbols := ∅, instances := ∅,
    selectedIds := [], selectedType := none,
    commandHistory := [], historyIndex := -1 }

/-- Deleting the wall `w1` of `exStateLoneWall` with its backup payload. -/
def exCmdDelWall : Command :=
  .del "w1" (.dwall ⟨"a", "b", 200, true⟩)

/-- The room record of the rectangle scenario (area field cached at the
correct initial value 24000000 mm²). -/
def exRoomRect : Room :=
  ⟨"r1", ["v1", "v2", "v3", "v4"], "living", 24000000⟩

/-- The 6000×4000 rectangle state of the spec scenarios: four vertices and
one room whose cached `area` matches its geometry. -/
def exStateRect : EditorState :=
  { vertices := ((((Finmap.singleton "v1" ⟨0, 0⟩).insert "v2" ⟨6000, 0⟩).insert
      "v3" ⟨6000, 4000⟩).insert "v4" ⟨0, 4000⟩),
    walls := ∅,
    rooms := Finmap.singleton "r1" exRoomRect,
    symbols := ∅, instances := ∅,
    selectedIds := [], selectedType := none,
    commandHistory := [], historyIndex := -1 }

/-- Move `v1` of the rectangle from `(0,0)` to `(100,100)`. -/
def exCmdMoveV1 : Command :=
  .moveVertex "v1" ⟨0, 0⟩ ⟨100, 100⟩

/-- The wall record of the instance scenario: `w1` from `v1` to `v2`. -/
def exWallW1 : Wall :=
  ⟨"v1", "v2", 200, true⟩

/-- The door instance `d1` anchored on wall `w1` at `offsetFromStart = 1500`. -/
def exInstD1 : Instc :=
  ⟨"door.single", some ⟨some ⟨"wall", "w1"⟩, 1500⟩, none, ⟨900, "D-01"⟩⟩

/-- Wall `w1` from `(0,0)` to `(6000,0)` carrying the anchored door `d1`. -/
def exStateDoor : EditorState :=
  { vertices := (Finmap.singleton "v1" ⟨0, 0⟩).insert "v2" ⟨6000, 0⟩,
    walls := Finmap.singleton "w1" exWallW1,
    rooms := ∅, symbols := ∅,
    instances := Finmap.singleton "d1" exInstD1,
    selectedIds := [], selectedType := none,
    commandHistory := [], historyIndex := -1 }

/-- Shorten wall `w1` by moving `v2` from `(6000,0)` to `(1000,0)`. -/
def exCmdShorten : Command :=
  .moveVertex "v2" ⟨6000, 0⟩ ⟨1000, 0⟩

/-- A state whose history holds one move-vertex command targeting the missing
vertex `v`, with the cursor on it. -/
def exStateHistMV : EditorState :=
  { vertices := ∅, walls := ∅, rooms := ∅, symbols := ∅, instances := ∅,
    selectedIds := [], selectedType := none,
    commandHistory := [Command.moveVertex "v" ⟨0, 0⟩ ⟨1, 1⟩], historyIndex := 0 }

/-- A state whose history holds one move-instance command targeting the
missing instance `i`, with the cursor on it. -/
def exStateHistMI : EditorState :=
  { vertices := ∅, walls := ∅, rooms := ∅, symbols := ∅, instances := ∅,
    selectedIds := [], selectedType := none,
    commandHistory := [Command.moveInstance "i" 0 1], historyIndex := 0 }

theorem lookup_addVertexIfAbsent_ne (t : Table Vertex) (i k : EntId) (v : Vertex)
    (h : k ≠ i) : (addVertexIfAbsent t i v).lookup k = t.lookup k := by
  unfold addVertexIfAbsent
  split
  · rfl
  · exact Finmap.lookup_insert_of_ne t h

theorem addVertexIfAbsent_of_mem (t : Table Vertex) (i : EntId) (v : Vertex)
    (h : i ∈ t) : addVertexIfAbsent t i v = t := by
  unfold addVertexIfAbsent
  exact if_pos h

theorem lookup_addVertexIfAbsent_self (t : Table Vertex) (i : EntId) (v : Vertex)
    (h : i ∉ t) : (addVertexIfAbsent t i v).lookup i = some v := by
  unfold addVertexIfAbsent
  rw [if_neg h, Finmap.lookup_insert]

theorem mem_addVertexIfAbsent (t : Table Vertex) (i k : EntId) (v : Vertex) :
    k ∈ addVertexIfAbsent t i v ↔ k = i ∨ k ∈ t := by
  unfold addVertexIfAbsent
  split
  · rename_i hm
    constructor
    · exact Or.inr
    · rintro (rfl | hk)
      · exact hm
      · exact hk
  · exact Finmap.mem_insert

theorem lookup_addVertexIfAbsent_of_mem (t : Table Vertex) (i k : EntId) (v : Vertex)
    (h : k ∈ t) : (addVertexIfAbsent t i v).lookup k = t.lookup k := by
  by_cases hik : k = i
  · subst hik
    rw [addVertexIfAbsent_of_mem t k v h]
  · exact lookup_addVertexIfAbsent_ne t i k v hik

theorem lookup_foldAdd_of_mem (ps : List (EntId × Vertex)) (t : Table Vertex)
    (k : EntId) (h : k ∈ t) :
    (ps.foldl (fun t p => addVertexIfAbsent t p.1 p.2) t).lookup k = t.lookup k := by
  induction ps generalizing t with
  | nil => rfl
  | cons p ps ih =>
    have hmem : k ∈ addVertexIfAbsent t p.1 p.2 :=
      (mem_addVertexIfAbsent t p.1 k p.2).2 (Or.inr h)
    simpa [List.foldl_cons, ih _ hmem] using
      lookup_addVertexIfAbsent_of_mem t p.1 k p.2 h

theorem lookup_foldAdd_not_mem (ps : List (EntId × Vertex)) (t : Table Vertex)
    (k : EntId) (hk : ∀ p ∈ ps, p.1 ≠ k) :
    (ps.foldl (fun t p => addVertexIfAbsent t p.1 p.2) t).lookup k = t.lookup k := by
  induction ps generalizing t with
  | nil => rfl
  | cons p ps ih =>
    have h1 : p.1 ≠ k := hk p (List.mem_cons_self p ps)
    have h2 : ∀ q ∈ ps, q.1 ≠ k := fun q hq => hk q (List.mem_cons_of_mem p hq)
    rw [List.foldl_cons, ih _ h2, lookup_addVertexIfAbsent_ne t p.1 k p.2 (Ne.symm h1)]

theorem lookup_foldAdd_of_not_mem (ps : List (EntId × Vertex)) (t : Table Vertex)
    (k : EntId) (hk : k ∉ t) :
    (ps.foldl (fun t p => addVertexIfAbsent t p.1 p.2) t).lookup k =
      (ps.find? (fun p => p.1 == k)).map Prod.snd := by
  induction ps generalizing t with
  | nil =>
    simp [Finmap.lookup_eq_none.2 hk]
  | cons p ps ih =>
    by_cases hp : p.1 = k
    · subst hp
      have hlk : (addVertexIfAbsent t p.1 p.2).lookup p.1 = some p.2 :=
        lookup_addVertexIfAbsent_self t p.1 p.2 hk
      have hmem : p.1 ∈ addVertexIfAbsent t p.1 p.2 :=
        Finmap.mem_of_lookup_eq_some hlk
      rw [List.foldl_cons, lookup_foldAdd_of_mem ps _ p.1 hmem, hlk]
      simp [List.find?]
    · have hk2 : k ∉ addVertexIfAbsent t p.1 p.2 := by
        rw [mem_addVertexIfAbsent]
        rintro (rfl | hmem)
        · exact hp rfl
        · exact hk hmem
      rw [List.foldl_cons, ih _ hk2]
      have hb : (p.1 == k) = false := by
        simp [hp]
      simp [List.find?, hb]

theorem lookup_foldErase (l : List EntId) (C : EntId → Prop) [DecidablePred C]
    (t : Table Vertex) (k : EntId) :
    (l.foldl (fun t vId => if C vId then t else t.erase vId) t).lookup k =
      if k ∈ l ∧ ¬ C k then none else t.lookup k := by
  induction l generalizing t with
  | nil => simp
  | cons v l ih =>
    rw [List.foldl_cons, ih]
    by_cases hCv : C v
    · rw [if_pos hCv]
      by_cases hkl : k ∈ l ∧ ¬ C k
      · rw [if_pos hkl, if_pos ⟨List.mem_cons_of_mem v hkl.1, hkl.2⟩]
      · rw [if_neg hkl]
        have : ¬ (k ∈ v :: l ∧ ¬ C k) := by
          rintro ⟨hmem, hnC⟩
          rcases List.mem_cons.1 hmem with rfl | hmem2
          · exact hnC hCv
          · exact hkl ⟨hmem2, hnC⟩
        rw [if_neg this]
    · rw [if_neg hCv]
      by_cases hkv : k = v
      · subst hkv
        have hcond : k ∈ k :: l ∧ ¬ C k := ⟨List.mem_cons_self k l, hCv⟩
        rw [if_pos hcond]
        by_cases hkl : k ∈ l ∧ ¬ C k
        · rw [if_pos hkl]
        · rw [if_neg hkl, Finmap.lookup_erase]
      · by_cases hkl : k ∈ l ∧ ¬ C k
        · rw [if_pos hkl, if_pos ⟨List.mem_cons_of_mem v hkl.1, hkl.2⟩]
        · rw [if_neg hkl]
          have : ¬ (k ∈ v :: l ∧ ¬ C k) := by
            rintro ⟨hmem, hnC⟩
            rcases List.mem_cons.1 hmem with rfl | hmem2
            · exact hkv rfl
            · exact hkl ⟨hmem2, hnC⟩
          rw [if_neg this, Finmap.lookup_erase_ne hkv]

theorem Command.exec_historyFields (c : Command) (s : EditorState) :
    (c.exec s).commandHistory = s.commandHistory ∧
      (c.exec s).historyIndex = s.historyIndex := by
  cases c with
  | moveVertex a o n =>
    simp only [exec]
    cases s.vertices.lookup a <;> simp
  | addWall w a b da db wd => simp [exec]
  | addRoom r ids dat rd => simp [exec]
  | addInstance i d => simp [exec]
  | del o t => cases t <;> simp [exec]
  | moveInstance i o n =>
    simp only [exec]
    cases s.instances.lookup i <;> simp

theorem Command.undoCmd_historyFields (c : Command) (s : EditorState) :
    (c.undoCmd s).commandHistory = s.commandHistory ∧
      (c.undoCmd s).historyIndex = s.historyIndex := by
  cases c with
  | moveVertex a o n =>
    simp only [undoCmd]
    cases s.vertices.lookup a <;> simp
  | addWall w a b da db wd => simp [undoCmd]
  | addRoom r ids dat rd => simp [undoCmd]
  | addInstance i d => simp [undoCmd]
  | del o t => cases t <;> simp [undoCmd]
  | moveInstance i o n =>
    simp only [undoCmd]
    cases s.instances.lookup i <;> simp

theorem executeCommand_history (c : Command) (s : EditorState) :
    (executeCommand c s).commandHistory =
      s.commandHistory.take (s.historyIndex + 1).toNat ++ [c] := rfl

theorem executeCommand_index (c : Command) (s : EditorState) :
    (executeCommand c s).historyIndex =
      ((s.commandHistory.take (s.historyIndex + 1).toNat ++ [c]).length : ℤ) - 1 := rfl

theorem executeCommand_tables (c : Command) (s : EditorState) :
    (executeCommand c s).tables = (c.exec s).tables := rfl

theorem executeCommand_index_nonneg (c : Command) (s : EditorState) :
    0 ≤ (executeCommand c s).historyIndex := by
  rw [executeCommand_index]
  have : 1 ≤ (s.commandHistory.take (s.historyIndex + 1).toNat ++ [c]).length := by
    simp
  omega

theorem executeCommand_get_self (c : Command) (s : EditorState) :
    (executeCommand c s).commandHistory.get?
        (executeCommand c s).historyIndex.toNat = some c := by
  rw [executeCommand_history, executeCommand_index]
  have hlen : (s.commandHistory.take (s.historyIndex + 1).toNat ++ [c]).length =
      (s.commandHistory.take (s.historyIndex + 1).toNat).length + 1 := by
    simp
  rw [hlen]
  have htn : ((((s.commandHistory.take (s.historyIndex + 1).toNat).length + 1 : ℕ) : ℤ)
      - 1).toNat = (s.commandHistory.take (s.historyIndex + 1).toNat).length := by
    omega
  rw [htn]
  exact List.get?_concat_length _ c

theorem undoStore_executeCommand (c : Command) (s : EditorState) :
    undoStore (executeCommand c s) =
      { c.undoCmd (executeCommand c s) with
          historyIndex := (executeCommand c s).historyIndex - 1 } := by
  unfold undoStore
  rw [if_neg (by have := executeCommand_index_nonneg c s; omega),
    executeCommand_get_self]

theorem tables_eq_iff (a b : EditorState) :
    a.tables = b.tables ↔
      a.vertices = b.vertices ∧ a.walls = b.walls ∧ a.rooms = b.rooms ∧
        a.symbols = b.symbols ∧ a.instances = b.instances := by
  simp [EditorState.tables, Prod.ext_iff]

theorem undoExec_moveVertex (vId : EntId) (old new : Vertex) (s s1 : EditorState)
    (h : s1.tables = ((Command.moveVertex vId old new).exec s).tables)
    (hwf : (Command.moveVertex vId old new).wfUndo s) :
    ((Command.moveVertex vId old new).undoCmd s1).tables = s.tables := by
  simp only [Command.exec] at h
  simp only [Command.wfUndo] at hwf
  simp only [Command.undoCmd]
  cases hl : s.vertices.lookup vId with
  | none =>
    rw [hl] at h
    rw [tables_eq_iff] at h
    obtain ⟨hv, hw, hr, hsym, hi⟩ := h
    rw [hv, hl]
    rw [tables_eq_iff]
    exact ⟨hv, hw, hr, hsym, hi⟩
  | some v =>
    obtain ⟨vx, vy⟩ := v
    rw [hl] at h hwf
    rw [tables_eq_iff] at h
    obtain ⟨hv, hw, hr, hsym, hi⟩ := h
    obtain ⟨hx, hy⟩ := hwf
    rw [hv, Finmap.lookup_insert]
    rw [tables_eq_iff]
    refine ⟨?_, hw, hr, hsym, hi⟩
    apply Finmap.ext_lookup
    intro k
    by_cases hk : k = vId
    · subst hk
      rw [Finmap.lookup_insert, hl]
      simp only at hx hy
      rw [hx, hy]
    · rw [Finmap.lookup_insert_of_ne _ hk, Finmap.lookup_insert_of_ne _ hk]

theorem undoExec_addWall (wallId v1Id v2Id : EntId) (d1 d2 : Vertex) (wd : Wall)
    (s s1 : EditorState)
    (h : s1.tables = ((Command.addWall wallId v1Id v2Id d1 d2 wd).exec s).tables)
    (hwf : (Command.addWall wallId v1Id v2Id d1 d2 wd).wfUndo s) :
    ((Command.addWall wallId v1Id v2Id d1 d2 wd).undoCmd s1).tables = s.tables := by
  simp only [Command.exec] at h
  obtain ⟨hW, h1, h2, hu1, hu2⟩ := hwf
  rw [tables_eq_iff] at h
  obtain ⟨hv, hw, hr, hsym, hi⟩ := h
  simp only [Command.undoCmd]
  have hnw : s1.walls.erase wallId = s.walls := by
    apply Finmap.ext_lookup
    intro k
    by_cases hk : k = wallId
    · subst hk
      rw [Finmap.lookup_erase, (Finmap.lookup_eq_none).2 hW]
    · rw [Finmap.lookup_erase_ne hk, hw, Finmap.lookup_insert_of_ne _ hk]
  rw [hnw, if_neg hu1, if_neg hu2]
  rw [tables_eq_iff]
  refine ⟨?_, rfl, hr, hsym, hi⟩
  apply Finmap.ext_lookup
  intro k
  by_cases hk2 : k = v2Id
  · subst hk2
    rw [Finmap.lookup_erase, (Finmap.lookup_eq_none).2 h2]
  · rw [Finmap.lookup_erase_ne hk2]
    by_cases hk1 : k = v1Id
    · subst hk1
      rw [Finmap.lookup_erase, (Finmap.lookup_eq_none).2 h1]
    · rw [Finmap.lookup_erase_ne hk1, hv,
        lookup_addVertexIfAbsent_ne _ _ _ _ hk2,
        lookup_addVertexIfAbsent_ne _ _ _ _ hk1]

theorem undoExec_addRoom (roomId : EntId) (ids : List EntId) (dat : List Vertex)
    (rd : Room) (s s1 : EditorState)
    (h : s1.tables = ((Command.addRoom roomId ids dat rd).exec s).tables)
    (hwf : (Command.addRoom roomId ids dat rd).wfUndo s) :
    ((Command.addRoom roomId ids dat rd).undoCmd s1).tables = s.tables := by
  simp only [Command.exec] at h
  obtain ⟨hR, hall⟩ := hwf
  rw [tables_eq_iff] at h
  obtain ⟨hv, hw, hr, hsym, hi⟩ := h
  replace hv : s1.vertices =
      (ids.zip dat).foldl (fun t p => addVertexIfAbsent t p.1 p.2) s.vertices := hv
  replace hw : s1.walls = s.walls := hw
  replace hr : s1.rooms = s.rooms.insert roomId rd := hr
  replace hsym : s1.symbols = s.symbols := hsym
  replace hi : s1.instances = s.instances := hi
  have hnr : s1.rooms.erase roomId = s.rooms := by
    apply Finmap.ext_lookup
    intro k
    by_cases hk : k = roomId
    · subst hk
      rw [Finmap.lookup_erase, (Finmap.lookup_eq_none).2 hR]
    · rw [Finmap.lookup_erase_ne hk, hr, Finmap.lookup_insert_of_ne _ hk]
  simp only [Command.undoCmd]
  rw [tables_eq_iff]
  refine ⟨?_, hw, hnr, hsym, hi⟩
  rw [hnr, hw]
  apply Finmap.ext_lookup
  intro k
  rw [lookup_foldErase ids
    (fun vId => someRoomUses s.rooms vId ∨ someWallUses s.walls vId) s1.vertices k]
  by_cases hmem : k ∈ ids
  · obtain ⟨hkv, hkr, hkw⟩ := hall k hmem
    rw [if_pos ⟨hmem, by
      rintro (hc | hc)
      · exact hkr hc
      · exact hkw hc⟩]
    rw [(Finmap.lookup_eq_none).2 hkv]
  · rw [if_neg (by
      rintro ⟨hc, _⟩
      exact hmem hc)]
    rw [hv]
    apply lookup_foldAdd_not_mem
    intro p hp
    intro hpk
    exact hmem (hpk ▸ (List.of_mem_zip hp).1)

theorem undoExec_addInstance (instanceId : EntId) (dat : Instc) (s s1 : EditorState)
    (h : s1.tables = ((Command.addInstance instanceId dat).exec s).tables)
    (hwf : (Command.addInstance instanceId dat).wfUndo s) :
    ((Command.addInstance instanceId dat).undoCmd s1).tables = s.tables := by
  simp only [Command.exec] at h
  rw [tables_eq_iff] at h
  obtain ⟨hv, hw, hr, hsym, hi⟩ := h
  replace hi : s1.instances = s.instances.insert instanceId dat := hi
  simp only [Command.undoCmd]
  rw [tables_eq_iff]
  refine ⟨hv, hw, hr, hsym, ?_⟩
  apply Finmap.ext_lookup
  intro k
  by_cases hk : k = instanceId
  · subst hk
    rw [Finmap.lookup_erase, (Finmap.lookup_eq_none).2 hwf]
  · rw [Finmap.lookup_erase_ne hk, hi, Finmap.lookup_insert_of_ne _ hk]

theorem undoExec_del (objectId : EntId) (target : DelTarget) (s s1 : EditorState)
    (h : s1.tables = ((Command.del objectId target).exec s).tables)
    (hwf : (Command.del objectId target).wfUndo s) :
    ((Command.del objectId target).undoCmd s1).tables = s.tables := by
  cases target with
  | droom d =>
    simp only [Command.exec] at h
    simp only [Command.wfUndo] at hwf
    rw [tables_eq_iff] at h
    obtain ⟨hv, hw, hr, hsym, hi⟩ := h
    replace hr : s1.rooms = s.rooms.erase objectId := hr
    simp only [Command.undoCmd]
    rw [tables_eq_iff]
    refine ⟨hv, hw, ?_, hsym, hi⟩
    apply Finmap.ext_lookup
    intro k
    by_cases hk : k = objectId
    · subst hk
      rw [Finmap.lookup_insert, hwf]
    · rw [Finmap.lookup_insert_of_ne _ hk, hr, Finmap.lookup_erase_ne hk]
  | dwall d =>
    simp only [Command.exec] at h
    simp only [Command.wfUndo] at hwf
    rw [tables_eq_iff] at h
    obtain ⟨hv, hw, hr, hsym, hi⟩ := h
    replace hw : s1.walls = s.walls.erase objectId := hw
    simp only [Command.undoCmd]
    rw [tables_eq_iff]
    refine ⟨hv, ?_, hr, hsym, hi⟩
    apply Finmap.ext_lookup
    intro k
    by_cases hk : k = objectId
    · subst hk
      rw [Finmap.lookup_insert, hwf]
    · rw [Finmap.lookup_insert_of_ne _ hk, hw, Finmap.lookup_erase_ne hk]
  | dinstance d =>
    simp only [Command.exec] at h
    simp only [Command.wfUndo] at hwf
    rw [tables_eq_iff] at h
    obtain ⟨hv, hw, hr, hsym, hi⟩ := h
    replace hi : s1.instances = s.instances.erase objectId := hi
    simp only [Command.undoCmd]
    rw [tables_eq_iff]
    refine ⟨hv, hw, hr, hsym, ?_⟩
    apply Finmap.ext_lookup
    intro k
    by_cases hk : k = objectId
    · subst hk
      rw [Finmap.lookup_insert, hwf]
    · rw [Finmap.lookup_insert_of_ne _ hk, hi, Finmap.lookup_erase_ne hk]
  | dvertex d =>
    simp only [Command.exec] at h
    simp only [Command.wfUndo] at hwf
    rw [tables_eq_iff] at h
    obtain ⟨hv, hw, hr, hsym, hi⟩ := h
    replace hv : s1.vertices = s.vertices.erase objectId := hv
    simp only [Command.undoCmd]
    rw [tables_eq_iff]
    refine ⟨?_, hw, hr, hsym, hi⟩
    apply Finmap.ext_lookup
    intro k
    by_cases hk : k = objectId
    · subst hk
      rw [Finmap.lookup_insert, hwf]
    · rw [Finmap.lookup_insert_of_ne _ hk, hv, Finmap.lookup_erase_ne hk]

theorem undoExec_moveInstance (instanceId : EntId) (oldO newO : ℚ) (s s1 : EditorState)
    (h : s1.tables = ((Command.moveInstance instanceId oldO newO).exec s).tables)
    (hwf : (Command.moveInstance instanceId oldO newO).wfUndo s) :
    ((Command.moveInstance instanceId oldO newO).undoCmd s1).tables = s.tables := by
  simp only [Command.exec] at h
  simp only [Command.wfUndo] at hwf
  simp only [Command.undoCmd]
  cases hl : s.instances.lookup instanceId with
  | none =>
    rw [hl] at h
    rw [tables_eq_iff] at h
    obtain ⟨hv, hw, hr, hsym, hi⟩ := h
    replace hi : s1.instances = s.instances := hi
    rw [hi, hl]
    rw [tables_eq_iff]
    exact ⟨hv, hw, hr, hsym, hi⟩
  | some inst =>
    rw [hl] at h hwf
    replace hwf : (match inst.constraint with
      | none => False
      | some c => c.offsetFromStart = oldO) := hwf
    cases hc : inst.constraint with
    | none =>
      rw [hc] at hwf
      exact hwf.elim
    | some c0 =>
      rw [hc] at hwf
      replace hwf : c0.offsetFromStart = oldO := hwf
      rw [tables_eq_iff] at h
      obtain ⟨hv, hw, hr, hsym, hi⟩ := h
      replace hi : s1.instances = s.instances.insert instanceId
          { inst with constraint := some (spreadConstraint inst.constraint newO) } := hi
      rw [hi, Finmap.lookup_insert]
      rw [tables_eq_iff]
      refine ⟨hv, hw, hr, hsym, ?_⟩
      apply Finmap.ext_lookup
      intro k
      by_cases hk : k = instanceId
      · subst hk
        rw [Finmap.lookup_insert, hl]
        have hsp : spreadConstraint
            ({ inst with constraint := some (spreadConstraint inst.constraint newO) }).constraint
              oldO = c0 := by
          simp only [spreadConstraint, hc]
          cases c0 with
          | mk att off =>
            simp only at hwf
            rw [hwf]

        rw [hsp]
        congr 1
        cases inst with
        | mk sym con tr pr =>
          simp only at hc
          rw [hc]
      · rw [Finmap.lookup_insert_of_ne _ hk, Finmap.lookup_insert_of_ne _ hk]

theorem spreadConstraint_spread (oc : Option Constr) (o1 o2 : ℚ) :
    spreadConstraint (some (spreadConstraint oc o1)) o2 = spreadConstraint oc o2 := by
  cases oc <;> rfl

theorem lookup_addVertexIfAbsent_pointwise (t : Table Vertex) (i k : EntId) (v : Vertex) :
    (addVertexIfAbsent t i v).lookup k =
      if k = i then some ((t.lookup i).getD v) else t.lookup k := by
  by_cases hk : k = i
  · subst hk
    rw [if_pos rfl]
    by_cases hm : k ∈ t
    · rw [addVertexIfAbsent_of_mem t k v hm]
      obtain ⟨w, hw⟩ := Finmap.mem_iff.1 hm
      rw [hw]
      rfl
    · rw [lookup_addVertexIfAbsent_self t k v hm, (Finmap.lookup_eq_none).2 hm]
      rfl
  · rw [if_neg hk, lookup_addVertexIfAbsent_ne t i k v hk]

theorem redoExec_moveVertex (vId : EntId) (old new : Vertex) (s s1 s2 : EditorState)
    (h1 : s1.tables = ((Command.moveVertex vId old new).exec s).tables)
    (h2 : s2.tables = ((Command.moveVertex vId old new).undoCmd s1).tables) :
    ((Command.moveVertex vId old new).exec s2).tables =
      ((Command.moveVertex vId old new).exec s).tables := by
  simp only [Command.exec, Command.undoCmd] at h1 h2 ⊢
  cases hl : s.vertices.lookup vId with
  | none =>
    rw [hl] at h1
    rw [tables_eq_iff] at h1
    obtain ⟨hv1, hw1, hr1, hsym1, hi1⟩ := h1
    replace hv1 : s1.vertices = s.vertices := hv1
    replace hw1 : s1.walls = s.walls := hw1
    replace hr1 : s1.rooms = s.rooms := hr1
    replace hsym1 : s1.symbols = s.symbols := hsym1
    replace hi1 : s1.instances = s.instances := hi1
    rw [hv1, hl] at h2
    rw [tables_eq_iff] at h2
    obtain ⟨hv2, hw2, hr2, hsym2, hi2⟩ := h2
    replace hv2 : s2.vertices = s1.vertices := hv2
    rw [hv2, hv1, hl]
    rw [tables_eq_iff]
    exact ⟨hv2.trans hv1, hw2.trans hw1, hr2.trans hr1, hsym2.trans hsym1,
      hi2.trans hi1⟩
  | some v =>
    obtain ⟨vx, vy⟩ := v
    rw [hl] at h1
    rw [tables_eq_iff] at h1
    obtain ⟨hv1, hw1, hr1, hsym1, hi1⟩ := h1
    replace hv1 : s1.vertices = s.vertices.insert vId ⟨new.x, new.y⟩ := hv1
    replace hw1 : s1.walls = s.walls := hw1
    replace hr1 : s1.rooms = s.rooms := hr1
    replace hsym1 : s1.symbols = s.symbols := hsym1
    replace hi1 : s1.instances = s.instances := hi1
    have hl1 : s1.vertices.lookup vId = some ⟨new.x, new.y⟩ := by
      rw [hv1, Finmap.lookup_insert]
    rw [hl1] at h2
    rw [tables_eq_iff] at h2
    obtain ⟨hv2, hw2, hr2, hsym2, hi2⟩ := h2
    replace hv2 : s2.vertices = s1.vertices.insert vId ⟨old.x, old.y⟩ := hv2
    have hl2 : s2.vertices.lookup vId = some ⟨old.x, old.y⟩ := by
      rw [hv2, Finmap.lookup_insert]
    rw [hl2]
    rw [tables_eq_iff]
    refine ⟨?_, hw2.trans hw1, hr2.trans hr1, hsym2.trans hsym1, hi2.trans hi1⟩
    apply Finmap.ext_lookup
    intro k
    by_cases hk : k = vId
    · subst hk
      rw [Finmap.lookup_insert, Finmap.lookup_insert]
    · rw [Finmap.lookup_insert_of_ne _ hk, Finmap.lookup_insert_of_ne _ hk,
        hv2, Finmap.lookup_insert_of_ne _ hk, hv1, Finmap.lookup_insert_of_ne _ hk]

theorem redoExec_moveInstance (iId : EntId) (oldO newO : ℚ) (s s1 s2 : EditorState)
    (h1 : s1.tables = ((Command.moveInstance iId oldO newO).exec s).tables)
    (h2 : s2.tables = ((Command.moveInstance iId oldO newO).undoCmd s1).tables) :
    ((Command.moveInstance iId oldO newO).exec s2).tables =
      ((Command.moveInstance iId oldO newO).exec s).tables := by
  simp only [Command.exec, Command.undoCmd] at h1 h2 ⊢
  cases hl : s.instances.lookup iId with
  | none =>
    rw [hl] at h1
    rw [tables_eq_iff] at h1
    obtain ⟨hv1, hw1, hr1, hsym1, hi1⟩ := h1
    replace hi1 : s1.instances = s.instances := hi1
    rw [hi1, hl] at h2
    rw [tables_eq_iff] at h2
    obtain ⟨hv2, hw2, hr2, hsym2, hi2⟩ := h2
    replace hi2 : s2.instances = s1.instances := hi2
    rw [hi2, hi1, hl]
    rw [tables_eq_iff]
    exact ⟨hv2.trans hv1, hw2.trans hw1, hr2.trans hr1, hsym2.trans hsym1,
      hi2.trans hi1⟩
  | some inst =>
    rw [hl] at h1
    rw [tables_eq_iff] at h1
    obtain ⟨hv1, hw1, hr1, hsym1, hi1⟩ := h1
    replace hi1 : s1.instances = s.instances.insert iId { inst with constraint := some (spreadConstraint inst.constraint newO) } := hi1
    have hl1 : s1.instances.lookup iId = some { inst with constraint := some (spreadConstraint inst.constraint newO) } := by
      rw [hi1, Finmap.lookup_insert]
    rw [hl1] at h2
    rw [tables_eq_iff] at h2
    obtain ⟨hv2, hw2, hr2, hsym2, hi2⟩ := h2
    replace hi2 : s2.instances = s1.instances.insert iId { inst with constraint := some (spreadConstraint (some (spreadConstraint inst.constraint newO)) oldO) } := hi2
    have hl2 : s2.instances.lookup iId = some { inst with constraint := some (spreadConstraint (some (spreadConstraint inst.constraint newO)) oldO) } := by
      rw [hi2, Finmap.lookup_insert]
    rw [hl2]
    rw [tables_eq_iff]
    refine ⟨hv2.trans hv1, hw2.trans hw1, hr2.trans hr1, hsym2.trans hsym1, ?_⟩
    apply Finmap.ext_lookup
    intro k
    by_cases hk : k = iId
    · subst hk
      rw [Finmap.lookup_insert, Finmap.lookup_insert]
      rw [spreadConstraint_spread, spreadConstraint_spread]
    · rw [Finmap.lookup_insert_of_ne _ hk, Finmap.lookup_insert_of_ne _ hk,
        hi2, Finmap.lookup_insert_of_ne _ hk, hi1, Finmap.lookup_insert_of_ne _ hk]

theorem redoExec_addInstance (iId : EntId) (dat : Instc) (s s1 s2 : EditorState)
    (h1 : s1.tables = ((Command.addInstance iId dat).exec s).tables)
    (h2 : s2.tables = ((Command.addInstance iId dat).undoCmd s1).tables) :
    ((Command.addInstance iId dat).exec s2).tables =
      ((Command.addInstance iId dat).exec s).tables := by
  simp only [Command.exec, Command.undoCmd] at h1 h2 ⊢
  rw [tables_eq_iff] at h1 h2 ⊢
  obtain ⟨hv1, hw1, hr1, hsym1, hi1⟩ := h1
  obtain ⟨hv2, hw2, hr2, hsym2, hi2⟩ := h2
  replace hi1 : s1.instances = s.instances.insert iId dat := hi1
  replace hi2 : s2.instances = s1.instances.erase iId := hi2
  refine ⟨hv2.trans hv1, hw2.trans hw1, hr2.trans hr1, hsym2.trans hsym1, ?_⟩
  apply Finmap.ext_lookup
  intro k
  by_cases hk : k = iId
  · subst hk
    rw [Finmap.lookup_insert, Finmap.lookup_insert]
  · rw [Finmap.lookup_insert_of_ne _ hk, Finmap.lookup_insert_of_ne _ hk,
      hi2, Finmap.lookup_erase_ne hk, hi1, Finmap.lookup_insert_of_ne _ hk]

theorem redoExec_del (objectId : EntId) (target : DelTarget) (s s1 s2 : EditorState)
    (h1 : s1.tables = ((Command.del objectId target).exec s).tables)
    (h2 : s2.tables = ((Command.del objectId target).undoCmd s1).tables) :
    ((Command.del objectId target).exec s2).tables =
      ((Command.del objectId target).exec s).tables := by
  cases target with
  | droom d =>
    simp only [Command.exec, Command.undoCmd] at h1 h2 ⊢
    rw [tables_eq_iff] at h1 h2 ⊢
    obtain ⟨hv1, hw1, hr1, hsym1, hi1⟩ := h1
    obtain ⟨hv2, hw2, hr2, hsym2, hi2⟩ := h2
    replace hr1 : s1.rooms = s.rooms.erase objectId := hr1
    replace hr2 : s2.rooms = s1.rooms.insert objectId d := hr2
    refine ⟨hv2.trans hv1, hw2.trans hw1, ?_, hsym2.trans hsym1, hi2.trans hi1⟩
    apply Finmap.ext_lookup
    intro k
    by_cases hk : k = objectId
    · subst hk
      rw [Finmap.lookup_erase, Finmap.lookup_erase]
    · rw [Finmap.lookup_erase_ne hk, Finmap.lookup_erase_ne hk,
        hr2, Finmap.lookup_insert_of_ne _ hk, hr1, Finmap.lookup_erase_ne hk]
  | dwall d =>
    simp only [Command.exec, Command.undoCmd] at h1 h2 ⊢
    rw [tables_eq_iff] at h1 h2 ⊢
    obtain ⟨hv1, hw1, hr1, hsym1, hi1⟩ := h1
    obtain ⟨hv2, hw2, hr2, hsym2, hi2⟩ := h2
    replace hw1 : s1.walls = s.walls.erase objectId := hw1
    replace hw2 : s2.walls = s1.walls.insert objectId d := hw2
    refine ⟨hv2.trans hv1, ?_, hr2.trans hr1, hsym2.trans hsym1, hi2.trans hi1⟩
    apply Finmap.ext_lookup
    intro k
    by_cases hk : k = objectId
    · subst hk
      rw [Finmap.lookup_erase, Finmap.lookup_erase]
    · rw [Finmap.lookup_erase_ne hk, Finmap.lookup_erase_ne hk,
        hw2, Finmap.lookup_insert_of_ne _ hk, hw1, Finmap.lookup_erase_ne hk]
  | dinstance d =>
    simp only [Command.exec, Command.undoCmd] at h1 h2 ⊢
    rw [tables_eq_iff] at h1 h2 ⊢
    obtain ⟨hv1, hw1, hr1, hsym1, hi1⟩ := h1
    obtain ⟨hv2, hw2, hr2, hsym2, hi2⟩ := h2
    replace hi1 : s1.instances = s.instances.erase objectId := hi1
    replace hi2 : s2.instances = s1.instances.insert objectId d := hi2
    refine ⟨hv2.trans hv1, hw2.trans hw1, hr2.trans hr1, hsym2.trans hsym1, ?_⟩
    apply Finmap.ext_lookup
    intro k
    by_cases hk : k = objectId
    · subst hk
      rw [Finmap.lookup_erase, Finmap.lookup_erase]
    · rw [Finmap.lookup_erase_ne hk, Finmap.lookup_erase_ne hk,
        hi2, Finmap.lookup_insert_of_ne _ hk, hi1, Finmap.lookup_erase_ne hk]
  | dvertex d =>
    simp only [Command.exec, Command.undoCmd] at h1 h2 ⊢
    rw [tables_eq_iff] at h1 h2 ⊢
    obtain ⟨hv1, hw1, hr1, hsym1, hi1⟩ := h1
    obtain ⟨hv2, hw2, hr2, hsym2, hi2⟩ := h2
    replace hv1 : s1.vertices = s.vertices.erase objectId := hv1
    replace hv2 : s2.vertices = s1.vertices.insert objectId d := hv2
    refine ⟨?_, hw2.trans hw1, hr2.trans hr1, hsym2.trans hsym1, hi2.trans hi1⟩
    apply Finmap.ext_lookup
    intro k
    by_cases hk : k = objectId
    · subst hk
      rw [Finmap.lookup_erase, Finmap.lookup_erase]
    · rw [Finmap.lookup_erase_ne hk, Finmap.lookup_erase_ne hk,
        hv2, Finmap.lookup_insert_of_ne _ hk, hv1, Finmap.lookup_erase_ne hk]

theorem lookup_eraseIfChain (t : Table Vertex) (P1 P2 : Prop) [Decidable P1]
    [Decidable P2] (v1 v2 k : EntId) (hk1 : k ≠ v1) (hk2 : k ≠ v2) :
    (if P2 then (if P1 then t else t.erase v1)
      else (if P1 then t else t.erase v1).erase v2).lookup k = t.lookup k := by
  by_cases hP2 : P2
  · rw [if_pos hP2]
    by_cases hP1 : P1
    · rw [if_pos hP1]
    · rw [if_neg hP1, Finmap.lookup_erase_ne hk1]
  · rw [if_neg hP2, Finmap.lookup_erase_ne hk2]
    by_cases hP1 : P1
    · rw [if_pos hP1]
    · rw [if_neg hP1, Finmap.lookup_erase_ne hk1]

theorem lookup_eraseIfChain_none_or (t : Table Vertex) (P1 P2 : Prop) [Decidable P1]
    [Decidable P2] (v1 v2 x : EntId) :
    (if P2 then (if P1 then t else t.erase v1)
        else (if P1 then t else t.erase v1).erase v2).lookup x = t.lookup x ∨
      (if P2 then (if P1 then t else t.erase v1)
        else (if P1 then t else t.erase v1).erase v2).lookup x = none := by
  have hbase : (if P1 then t else t.erase v1).lookup x = t.lookup x ∨
      (if P1 then t else t.erase v1).lookup x = none := by
    by_cases hP1 : P1
    · rw [if_pos hP1]
      exact Or.inl rfl
    · rw [if_neg hP1]
      by_cases hx1 : x = v1
      · subst hx1
        exact Or.inr (Finmap.lookup_erase _ _)
      · rw [Finmap.lookup_erase_ne hx1]
        exact Or.inl rfl
  by_cases hP2 : P2
  · rw [if_pos hP2]
    exact hbase
  · rw [if_neg hP2]
    by_cases hx2 : x = v2
    · subst hx2
      exact Or.inr (Finmap.lookup_erase _ _)
    · rw [Finmap.lookup_erase_ne hx2]
      exact hbase

theorem redoExec_addWall (w v1 v2 : EntId) (d1 d2 : Vertex) (wd : Wall)
    (s s1 s2 : EditorState)
    (h1 : s1.tables = ((Command.addWall w v1 v2 d1 d2 wd).exec s).tables)
    (h2 : s2.tables = ((Command.addWall w v1 v2 d1 d2 wd).undoCmd s1).tables)
    (hwf : (Command.addWall w v1 v2 d1 d2 wd).wfRedo s) :
    ((Command.addWall w v1 v2 d1 d2 wd).exec s2).tables =
      ((Command.addWall w v1 v2 d1 d2 wd).exec s).tables := by
  simp only [Command.exec, Command.undoCmd] at h1 h2 ⊢
  obtain ⟨hn1, hn2⟩ := hwf
  rw [tables_eq_iff] at h1 h2 ⊢
  obtain ⟨hv1, hw1, hr1, hsym1, hi1⟩ := h1
  obtain ⟨hv2, hw2, hr2, hsym2, hi2⟩ := h2
  replace hv1 : s1.vertices =
    addVertexIfAbsent (addVertexIfAbsent s.vertices v1 d1) v2 d2 := hv1
  replace hw1 : s1.walls = s.walls.insert w wd := hw1
  replace hv2 : s2.vertices =
    (if someWallUses (s1.walls.erase w) v2 then
        (if someWallUses (s1.walls.erase w) v1 then s1.vertices else s1.vertices.erase v1)
      else
        (if someWallUses (s1.walls.erase w) v1 then s1.vertices
          else s1.vertices.erase v1).erase v2) := hv2
  replace hw2 : s2.walls = s1.walls.erase w := hw2
  have hgoal_walls : s2.walls.insert w wd = s.walls.insert w wd := by
    apply Finmap.ext_lookup
    intro k
    by_cases hk : k = w
    · subst hk
      rw [Finmap.lookup_insert, Finmap.lookup_insert]
    · rw [Finmap.lookup_insert_of_ne _ hk, Finmap.lookup_insert_of_ne _ hk,
        hw2, Finmap.lookup_erase_ne hk, hw1, Finmap.lookup_insert_of_ne _ hk]
  have hsA : s.vertices.lookup v1 = none := (Finmap.lookup_eq_none).2 hn1
  have hsB : s.vertices.lookup v2 = none := (Finmap.lookup_eq_none).2 hn2
  refine ⟨?_, hgoal_walls, hr2.trans hr1, hsym2.trans hsym1, hi2.trans hi1⟩
  by_cases h12 : v1 = v2
  · subst h12
    have hs1v : s1.vertices.lookup v1 = some d1 := by
      rw [hv1, lookup_addVertexIfAbsent_pointwise, if_pos rfl,
        lookup_addVertexIfAbsent_pointwise, if_pos rfl, hsA]
      rfl
    have hs2v : s2.vertices.lookup v1 = some d1 ∨ s2.vertices.lookup v1 = none := by
      rw [hv2]
      rcases lookup_eraseIfChain_none_or s1.vertices (someWallUses (s1.walls.erase w) v1) (someWallUses (s1.walls.erase w) v1) v1 v1 v1 with hx | hx
      · rw [hx, hs1v]
        exact Or.inl rfl
      · rw [hx]
        exact Or.inr rfl
    apply Finmap.ext_lookup
    intro k
    by_cases hk : k = v1
    · subst hk
      rw [lookup_addVertexIfAbsent_pointwise, if_pos rfl,
        lookup_addVertexIfAbsent_pointwise, if_pos rfl,
        lookup_addVertexIfAbsent_pointwise, if_pos rfl,
        lookup_addVertexIfAbsent_pointwise, if_pos rfl, hsA]
      rcases hs2v with hx | hx <;> rw [hx] <;> rfl
    · rw [lookup_addVertexIfAbsent_pointwise, if_neg hk,
        lookup_addVertexIfAbsent_pointwise, if_neg hk,
        lookup_addVertexIfAbsent_pointwise, if_neg hk,
        lookup_addVertexIfAbsent_pointwise, if_neg hk,
        hv2, lookup_eraseIfChain _ _ _ v1 v1 k hk hk, hv1,
        lookup_addVertexIfAbsent_pointwise, if_neg hk,
        lookup_addVertexIfAbsent_pointwise, if_neg hk]
  · have hs1v1 : s1.vertices.lookup v1 = some d1 := by
      rw [hv1, lookup_addVertexIfAbsent_pointwise, if_neg h12,
        lookup_addVertexIfAbsent_pointwise, if_pos rfl, hsA]
      rfl
    have hs1v2 : s1.vertices.lookup v2 = some d2 := by
      rw [hv1, lookup_addVertexIfAbsent_pointwise, if_pos rfl,
        lookup_addVertexIfAbsent_pointwise, if_neg (Ne.symm h12), hsB]
      rfl
    have hs2v1 : s2.vertices.lookup v1 = some d1 ∨ s2.vertices.lookup v1 = none := by
      rw [hv2]
      rcases lookup_eraseIfChain_none_or s1.vertices (someWallUses (s1.walls.erase w) v1) (someWallUses (s1.walls.erase w) v2) v1 v2 v1 with hx | hx
      · rw [hx, hs1v1]
        exact Or.inl rfl
      · rw [hx]
        exact Or.inr rfl
    have hs2v2 : s2.vertices.lookup v2 = some d2 ∨ s2.vertices.lookup v2 = none := by
      rw [hv2]
      rcases lookup_eraseIfChain_none_or s1.vertices (someWallUses (s1.walls.erase w) v1) (someWallUses (s1.walls.erase w) v2) v1 v2 v2 with hx | hx
      · rw [hx, hs1v2]
        exact Or.inl rfl
      · rw [hx]
        exact Or.inr rfl
    apply Finmap.ext_lookup
    intro k
    by_cases hk2 : k = v2
    · subst hk2
      rw [lookup_addVertexIfAbsent_pointwise, if_pos rfl,
        lookup_addVertexIfAbsent_pointwise, if_neg (Ne.symm h12),
        lookup_addVertexIfAbsent_pointwise, if_pos rfl,
        lookup_addVertexIfAbsent_pointwise, if_neg (Ne.symm h12), hsB]
      rcases hs2v2 with hx | hx <;> rw [hx] <;> rfl
    · by_cases hk1 : k = v1
      · subst hk1
        rw [lookup_addVertexIfAbsent_pointwise, if_neg hk2,
          lookup_addVertexIfAbsent_pointwise, if_pos rfl,
          lookup_addVertexIfAbsent_pointwise, if_neg hk2,
          lookup_addVertexIfAbsent_pointwise, if_pos rfl, hsA]
        rcases hs2v1 with hx | hx <;> rw [hx] <;> rfl
      · rw [lookup_addVertexIfAbsent_pointwise, if_neg hk2,
          lookup_addVertexIfAbsent_pointwise, if_neg hk1,
          lookup_addVertexIfAbsent_pointwise, if_neg hk2,
          lookup_addVertexIfAbsent_pointwise, if_neg hk1,
          hv2, lookup_eraseIfChain _ _ _ v1 v2 k hk1 hk2, hv1,
          lookup_addVertexIfAbsent_pointwise, if_neg hk2,
          lookup_addVertexIfAbsent_pointwise, if_neg hk1]

theorem redoExec_addRoom (r : EntId) (ids : List EntId) (dat : List Vertex)
    (rd : Room) (s s1 s2 : EditorState)
    (h1 : s1.tables = ((Command.addRoom r ids dat rd).exec s).tables)
    (h2 : s2.tables = ((Command.addRoom r ids dat rd).undoCmd s1).tables)
    (hwf : (Command.addRoom r ids dat rd).wfRedo s) :
    ((Command.addRoom r ids dat rd).exec s2).tables =
      ((Command.addRoom r ids dat rd).exec s).tables := by
  simp only [Command.exec, Command.undoCmd] at h1 h2 ⊢
  simp only [Command.wfRedo] at hwf
  rw [tables_eq_iff] at h1 h2 ⊢
  obtain ⟨hv1, hw1, hr1, hsym1, hi1⟩ := h1
  obtain ⟨hv2, hw2, hr2, hsym2, hi2⟩ := h2
  replace hv1 : s1.vertices =
    (ids.zip dat).foldl (fun t p => addVertexIfAbsent t p.1 p.2) s.vertices := hv1
  replace hr1 : s1.rooms = s.rooms.insert r rd := hr1
  replace hv2 : s2.vertices = ids.foldl
    (fun t vId =>
      if someRoomUses (s1.rooms.erase r) vId ∨ someWallUses s1.walls vId then t
      else t.erase vId) s1.vertices := hv2
  replace hr2 : s2.rooms = s1.rooms.erase r := hr2
  have hgoal_rooms : s2.rooms.insert r rd = s.rooms.insert r rd := by
    apply Finmap.ext_lookup
    intro k
    by_cases hk : k = r
    · subst hk
      rw [Finmap.lookup_insert, Finmap.lookup_insert]
    · rw [Finmap.lookup_insert_of_ne _ hk, Finmap.lookup_insert_of_ne _ hk,
        hr2, Finmap.lookup_erase_ne hk, hr1, Finmap.lookup_insert_of_ne _ hk]
  refine ⟨?_, hw2.trans hw1, hgoal_rooms, hsym2.trans hsym1, hi2.trans hi1⟩
  dsimp only
  have hs2k : ∀ k, s2.vertices.lookup k =
      if k ∈ ids ∧ ¬ (someRoomUses (s1.rooms.erase r) k ∨ someWallUses s1.walls k)
        then none else s1.vertices.lookup k := by
    intro k
    rw [hv2]
    exact lookup_foldErase ids _ s1.vertices k
  apply Finmap.ext_lookup
  intro k
  by_cases hkmem : k ∈ ids
  · have hkn : k ∉ s.vertices := hwf k hkmem
    by_cases hmem2 : k ∈ s2.vertices
    · rw [lookup_foldAdd_of_mem _ _ _ hmem2]
      obtain ⟨b, hb⟩ := Finmap.mem_iff.1 hmem2
      have hcond : ¬ (k ∈ ids ∧
          ¬ (someRoomUses (s1.rooms.erase r) k ∨ someWallUses s1.walls k)) := by
        intro hcond
        rw [hs2k k, if_pos hcond] at hb
        exact Option.noConfusion hb
      rw [hs2k k, if_neg hcond, hv1]
    · rw [lookup_foldAdd_of_not_mem _ _ _ hmem2,
        lookup_foldAdd_of_not_mem _ _ _ hkn]
  · have hzip : ∀ p ∈ ids.zip dat, p.1 ≠ k := by
      intro p hp hpk
      exact hkmem (hpk ▸ (List.of_mem_zip hp).1)
    rw [lookup_foldAdd_not_mem _ _ _ hzip, lookup_foldAdd_not_mem _ _ _ hzip,
      hs2k k, if_neg (by
        rintro ⟨hc, _⟩
        exact hkmem hc), hv1, lookup_foldAdd_not_mem _ _ _ hzip]

theorem wfUndo_roundTrip (c : Command) (s s1 : EditorState)
    (h : s1.tables = (c.exec s).tables) (hwf : c.wfUndo s) :
    (c.undoCmd s1).tables = s.tables := by
  cases c with
  | moveVertex a o n => exact undoExec_moveVertex a o n s s1 h hwf
  | addWall w a b da db wd => exact undoExec_addWall w a b da db wd s s1 h hwf
  | addRoom r ids dat rd => exact undoExec_addRoom r ids dat rd s s1 h hwf
  | addInstance i d => exact undoExec_addInstance i d s s1 h hwf
  | del o t => exact undoExec_del o t s s1 h hwf
  | moveInstance i a b => exact undoExec_moveInstance i a b s s1 h hwf

theorem wfRedo_roundTrip (c : Command) (s s1 s2 : EditorState)
    (h1 : s1.tables = (c.exec s).tables) (h2 : s2.tables = (c.undoCmd s1).tables)
    (hwf : c.wfRedo s) :
    (c.exec s2).tables = (c.exec s).tables := by
  cases c with
  | moveVertex a o n => exact redoExec_moveVertex a o n s s1 s2 h1 h2
  | addWall w a b da db wd => exact redoExec_addWall w a b da db wd s s1 s2 h1 h2 hwf
  | addRoom r ids dat rd => exact redoExec_addRoom r ids dat rd s s1 s2 h1 h2 hwf
  | addInstance i d => exact redoExec_addInstance i d s s1 s2 h1 h2
  | del o t => exact redoExec_del o t s s1 s2 h1 h2
  | moveInstance i a b => exact redoExec_moveInstance i a b s s1 s2 h1 h2

theorem redoStore_after_undo (c : Command) (s : EditorState) :
    redoStore (undoStore (executeCommand c s)) =
      { c.redoCmd (undoStore (executeCommand c s)) with
          historyIndex := (undoStore (executeCommand c s)).historyIndex + 1 } := by
  have hu := undoStore_executeCommand c s
  have hhist : (undoStore (executeCommand c s)).commandHistory =
      (executeCommand c s).commandHistory := by
    rw [hu]
    exact (Command.undoCmd_historyFields c _).1
  have hidx : (undoStore (executeCommand c s)).historyIndex =
      (executeCommand c s).historyIndex - 1 := by
    rw [hu]
  have hL : (executeCommand c s).historyIndex =
      ((executeCommand c s).commandHistory.length : ℤ) - 1 := by
    rw [executeCommand_index, executeCommand_history]
  unfold redoStore
  rw [if_neg (by
    rw [hhist, hidx, hL]
    omega)]
  have hget : (undoStore (executeCommand c s)).commandHistory.get?
      ((undoStore (executeCommand c s)).historyIndex + 1).toNat = some c := by
    rw [hhist, hidx]
    have : ((executeCommand c s).historyIndex - 1 + 1).toNat =
        (executeCommand c s).historyIndex.toNat := by
      omega
    rw [this]
    exact executeCommand_get_self c s
  rw [hget]

/-- C1 (amended): for a command that is well-formed for the state it runs on
(`Command.wfUndo`: stored old values match the current state; ids created by
add-commands are fresh and unreferenced; delete backups match the stored
entity), `executeCommand` followed by `undo` restores all five entity tables
exactly. -/
theorem executeCommand_then_undo_restores_tables (c : Command) (s : EditorState)
    (hwf : c.wfUndo s) :
    (undoStore (executeCommand c s)).tables = s.tables := by
  rw [undoStore_executeCommand]
  exact wfUndo_roundTrip c s (executeCommand c s) (executeCommand_tables c s) hwf

/-- C1 counterexample: a wall command reusing pre-existing vertex `v1` (still
referenced by room `r1`) is executed and undone, and the five tables are not
restored — `AddWallCommand.undo` deletes `v1` because it checks only walls,
not rooms, for remaining references. -/
theorem executeCommand_then_undo_not_identity :
    (undoStore (executeCommand exCmdAddWall exStateWallGC)).tables ≠
      exStateWallGC.tables := by
  decide

/-- Witness for the C1 theorem: deleting an existing wall and undoing it
restores the tables of the concrete state `exStateLoneWall`. -/
theorem executeCommand_then_undo_restores_tables_witness :
    Command.wfUndo exCmdDelWall exStateLoneWall ∧
      (undoStore (executeCommand exCmdDelWall exStateLoneWall)).tables =
        exStateLoneWall.tables :=
  ⟨by decide, executeCommand_then_undo_restores_tables exCmdDelWall exStateLoneWall
    (by decide)⟩

/-- C2 (amended): provided the vertex ids of an add-wall/add-room command are
not already in the vertex table (`Command.wfRedo`; every other command needs
no condition), `redo` after `undo` after `executeCommand` reproduces exactly
the five entity tables the original execution produced, even though `redo`
re-runs the command's execute logic. -/
theorem redo_after_undo_reproduces_tables (c : Command) (s : EditorState)
    (hwf : c.wfRedo s) :
    (redoStore (undoStore (executeCommand c s))).tables =
      (executeCommand c s).tables := by
  rw [redoStore_after_undo]
  have h2 : (undoStore (executeCommand c s)).tables =
      ((c.undoCmd (executeCommand c s))).tables := by
    rw [undoStore_executeCommand]
    rfl
  have hmain := wfRedo_roundTrip c s (executeCommand c s)
    (undoStore (executeCommand c s)) (executeCommand_tables c s) h2 hwf
  exact hmain.trans (executeCommand_tables c s).symm

/-- C2 counterexample: an add-room command listing the pre-existing orphan
vertex `v1` at `(5,5)` with payload `(0,0)`: undo garbage-collects `v1`, and
redo re-creates it at the payload position, so the tables after
redo-of-undo differ from the tables right after the original execution. -/
theorem redo_after_undo_not_reproduces :
    (redoStore (undoStore (executeCommand exCmdAddRoom exStateOrphan))).tables ≠
      (executeCommand exCmdAddRoom exStateOrphan).tables := by
  decide

/-- Witness for the C2 theorem at a concrete input: the delete-wall command
on `exStateLoneWall`. -/
theorem redo_after_undo_reproduces_tables_witness :
    Command.wfRedo exCmdDelWall exStateLoneWall ∧
      (redoStore (undoStore (executeCommand exCmdDelWall exStateLoneWall))).tables =
        (executeCommand exCmdDelWall exStateLoneWall).tables :=
  ⟨by decide, redo_after_undo_reproduces_tables exCmdDelWall exStateLoneWall
    (by decide)⟩

/-- C3 counterexample: deleting wall `w1`, whose two vertices `a`, `b` are
referenced by no other wall and no room, leaves both vertices in the vertex
table — the claim says they must be removed. -/
theorem deleteWall_keeps_exclusive_vertices :
    (executeCommand exCmdDelWall exStateLoneWall).walls.lookup "w1" = none ∧
      (executeCommand exCmdDelWall exStateLoneWall).vertices.lookup "a" = some ⟨0, 0⟩ ∧
      (executeCommand exCmdDelWall exStateLoneWall).vertices.lookup "b" = some ⟨1000, 0⟩ ∧
      ¬ someWallUses (executeCommand exCmdDelWall exStateLoneWall).walls "a" ∧
      ¬ someRoomUses (executeCommand exCmdDelWall exStateLoneWall).rooms "a" := by
  decide

/-- C3 (amended): executing a delete-wall command removes exactly the wall:
the vertex table is untouched whether or not the wall's vertices are
referenced elsewhere (so a vertex shared with a surviving room certainly
stays), and the rooms, symbols and instances tables are unchanged. -/
theorem deleteWall_removes_only_wall (oid : EntId) (wd : Wall) (s : EditorState) :
    (executeCommand (Command.del oid (DelTarget.dwall wd)) s).vertices = s.vertices ∧
      (executeCommand (Command.del oid (DelTarget.dwall wd)) s).walls = s.walls.erase oid ∧
      (executeCommand (Command.del oid (DelTarget.dwall wd)) s).rooms = s.rooms ∧
      (executeCommand (Command.del oid (DelTarget.dwall wd)) s).symbols = s.symbols ∧
      (executeCommand (Command.del oid (DelTarget.dwall wd)) s).instances = s.instances :=
  ⟨rfl, rfl, rfl, rfl, rfl⟩

/-- C7: when a move-vertex or move-instance command targets an id absent from
its table, its apply and undo logic leave all five entity tables unchanged,
yet `executeCommand` still truncates-and-appends and points the cursor at the
new command, and `undo` still decrements the cursor. -/
theorem missing_target_noop_but_cursor_moves (s : EditorState) (vId iId : EntId)
    (o n : Vertex) (a b : ℚ) :
    (s.vertices.lookup vId = none →
      (executeCommand (Command.moveVertex vId o n) s).tables = s.tables ∧
      (executeCommand (Command.moveVertex vId o n) s).commandHistory =
        s.commandHistory.take (s.historyIndex + 1).toNat ++ [Command.moveVertex vId o n] ∧
      (executeCommand (Command.moveVertex vId o n) s).historyIndex =
        (((executeCommand (Command.moveVertex vId o n) s).commandHistory.length : ℤ) - 1)) ∧
    (s.instances.lookup iId = none →
      (executeCommand (Command.moveInstance iId a b) s).tables = s.tables ∧
      (executeCommand (Command.moveInstance iId a b) s).commandHistory =
        s.commandHistory.take (s.historyIndex + 1).toNat ++ [Command.moveInstance iId a b] ∧
      (executeCommand (Command.moveInstance iId a b) s).historyIndex =
        (((executeCommand (Command.moveInstance iId a b) s).commandHistory.length : ℤ) - 1)) ∧
    (0 ≤ s.historyIndex →
      s.commandHistory.get? s.historyIndex.toNat = some (Command.moveVertex vId o n) →
      s.vertices.lookup vId = none →
      (undoStore s).tables = s.tables ∧ (undoStore s).historyIndex = s.historyIndex - 1) ∧
    (0 ≤ s.historyIndex →
      s.commandHistory.get? s.historyIndex.toNat = some (Command.moveInstance iId a b) →
      s.instances.lookup iId = none →
      (undoStore s).tables = s.tables ∧ (undoStore s).historyIndex = s.historyIndex - 1) := by
  refine ⟨?_, ?_, ?_, ?_⟩
  · intro h
    refine ⟨?_, rfl, rfl⟩
    rw [executeCommand_tables]
    simp only [Command.exec]
    rw [h]
  · intro h
    refine ⟨?_, rfl, rfl⟩
    rw [executeCommand_tables]
    simp only [Command.exec]
    rw [h]
  · intro hge hcur h
    unfold undoStore
    rw [if_neg (by omega), hcur]
    constructor
    · show ((Command.moveVertex vId o n).undoCmd s).tables = s.tables
      simp only [Command.undoCmd]
      rw [h]
    · rfl
  · intro hge hcur h
    unfold undoStore
    rw [if_neg (by omega), hcur]
    constructor
    · show ((Command.moveInstance iId a b).undoCmd s).tables = s.tables
      simp only [Command.undoCmd]
      rw [h]
    · rfl

/-- Witness for C7: at concrete states with the targeted ids missing, the
execute and undo paths leave tables unchanged while moving the cursor. -/
theorem missing_target_noop_but_cursor_moves_witness :
    ((executeCommand (Command.moveVertex "v" ⟨0, 0⟩ ⟨1, 1⟩) exStateHistMV).tables =
        exStateHistMV.tables) ∧
      ((undoStore exStateHistMV).tables = exStateHistMV.tables ∧
        (undoStore exStateHistMV).historyIndex = exStateHistMV.historyIndex - 1) ∧
      ((undoStore exStateHistMI).tables = exStateHistMI.tables ∧
        (undoStore exStateHistMI).historyIndex = exStateHistMI.historyIndex - 1) :=
  ⟨((missing_target_noop_but_cursor_moves exStateHistMV "v" "i" ⟨0, 0⟩ ⟨1, 1⟩ 0 1).1
      (by decide)).1,
    (missing_target_noop_but_cursor_moves exStateHistMV "v" "i" ⟨0, 0⟩ ⟨1, 1⟩ 0 1).2.2.1
      (by decide) (by decide) (by decide),
    (missing_target_noop_but_cursor_moves exStateHistMI "v" "i" ⟨0, 0⟩ ⟨1, 1⟩ 0 1).2.2.2
      (by decide) (by decide) (by decide)⟩

theorem reachable_historyIndex_bounds (s : EditorState) (h : Reachable s) :
    -1 ≤ s.historyIndex ∧ s.historyIndex ≤ (s.commandHistory.length : ℤ) - 1 := by
  induction h with
  | load d => simp [loadJSON]
  | exec c hs ih =>
    rename_i s0
    refine ⟨?_, ?_⟩
    · have := executeCommand_index_nonneg c s0
      omega
    · rw [executeCommand_index, executeCommand_history]
  | undoStep hs ih =>
    rename_i s0
    unfold undoStore
    by_cases hneg : s0.historyIndex < 0
    · rw [if_pos hneg]
      exact ih
    · rw [if_neg hneg]
      cases hget : s0.commandHistory.get? s0.historyIndex.toNat with
      | some c =>
        have hh := (Command.undoCmd_historyFields c s0).1
        refine ⟨?_, ?_⟩
        · show -1 ≤ s0.historyIndex - 1
          omega
        · show s0.historyIndex - 1 ≤ (((c.undoCmd s0).commandHistory.length : ℤ)) - 1
          rw [hh]
          have := ih.2
          omega
      | none =>
        refine ⟨?_, ?_⟩
        · show -1 ≤ s0.historyIndex - 1
          omega
        · show s0.historyIndex - 1 ≤ ((s0.commandHistory.length : ℤ)) - 1
          have := ih.2
          omega
  | redoStep hs ih =>
    rename_i s0
    unfold redoStore
    by_cases hend : (s0.commandHistory.length : ℤ) - 1 ≤ s0.historyIndex
    · rw [if_pos hend]
      exact ih
    · rw [if_neg hend]
      cases hget : s0.commandHistory.get? (s0.historyIndex + 1).toNat with
      | some c =>
        have hh := (Command.exec_historyFields c s0).1
        refine ⟨?_, ?_⟩
        · show -1 ≤ s0.historyIndex + 1
          have := ih.1
          omega
        · show s0.historyIndex + 1 ≤ (((c.redoCmd s0).commandHistory.length : ℤ)) - 1
          unfold Command.redoCmd
          rw [hh]
          omega
      | none =>
        refine ⟨?_, ?_⟩
        · show -1 ≤ s0.historyIndex + 1
          have := ih.1
          omega
        · show s0.historyIndex + 1 ≤ ((s0.commandHistory.length : ℤ)) - 1
          omega

/-- C10: from any loaded document, every sequence of
executeCommand/undo/redo keeps the cursor in `[-1, history.length - 1]`;
executeCommand truncates after the cursor and appends, so the new command is
the last entry and the cursor points at it; `canUndo` holds iff the cursor is
at least 0 and `canRedo` iff it is before the last entry. -/
theorem history_cursor_invariant (s : EditorState) (h : Reachable s) :
    (-1 ≤ s.historyIndex ∧ s.historyIndex ≤ (s.commandHistory.length : ℤ) - 1) ∧
      (∀ c : Command,
        (executeCommand c s).commandHistory =
          s.commandHistory.take (s.historyIndex + 1).toNat ++ [c] ∧
        (executeCommand c s).commandHistory.getLast? = some c ∧
        (executeCommand c s).historyIndex =
          ((executeCommand c s).commandHistory.length : ℤ) - 1) ∧
      (canUndo s = true ↔ 0 ≤ s.historyIndex) ∧
      (canRedo s = true ↔ s.historyIndex < (s.commandHistory.length : ℤ) - 1) := by
  refine ⟨reachable_historyIndex_bounds s h, ?_, ?_, ?_⟩
  · intro c
    refine ⟨executeCommand_history c s, ?_, rfl⟩
    rw [executeCommand_history]
    exact List.getLast?_concat _
  · simp [canUndo]
  · simp [canRedo]

/-- Witness for C10 at the concrete reachable state obtained by loading the
empty document. -/
theorem history_cursor_invariant_witness :
    (-1 ≤ (loadJSON emptyDoc).historyIndex ∧
        (loadJSON emptyDoc).historyIndex ≤
          (((loadJSON emptyDoc).commandHistory.length : ℤ)) - 1) ∧
      (canUndo (loadJSON emptyDoc) = true ↔ 0 ≤ (loadJSON emptyDoc).historyIndex) :=
  ⟨(history_cursor_invariant (loadJSON emptyDoc) (Reachable.load emptyDoc)).1,
    (history_cursor_invariant (loadJSON emptyDoc) (Reachable.load emptyDoc)).2.2.1⟩

theorem getD_of_lt (l : List (ℚ × ℚ)) (d : ℚ × ℚ) (i : ℕ) (h : i < l.length) :
    l.getD i d = l[i] := by
  rw [List.getD_eq_getElem?_getD, List.getElem?_eq_getElem h]
  rfl

theorem getD_reverse (l : List (ℚ × ℚ)) (d : ℚ × ℚ) (i : ℕ) (h : i < l.length) :
    l.reverse.getD i d = l.getD (l.length - 1 - i) d := by
  have h1 : i < l.reverse.length := by simpa using h
  rw [getD_of_lt _ _ i h1, getD_of_lt _ _ (l.length - 1 - i) (by omega)]
  exact List.getElem_reverse h1

theorem ratAbs_eq_abs (q : ℚ) : ratAbs q = |q| := by
  unfold ratAbs
  split
  · rename_i h
    exact (abs_of_neg h).symm
  · rename_i h
    exact (abs_of_nonneg (not_lt.1 h)).symm

theorem shoelaceSum_reverse (P : List (ℚ × ℚ)) :
    shoelaceSum P.reverse = - shoelaceSum P := by
  unfold shoelaceSum
  rw [List.length_reverse]
  rcases hn : P.length with _ | m
  · simp
  · rw [Finset.sum_range_succ, Finset.sum_range_succ]
    have hrev : ∀ i, i < m + 1 → P.reverse.getD i (0, 0) = P.getD (m - i) (0, 0) := by
      intro i hi
      have h1 : i < P.length := by omega
      rw [getD_reverse _ _ i h1]
      have : P.length - 1 - i = m - i := by omega
      rw [this]
    have hbulk : (∑ i in Finset.range m,
        ((P.reverse.getD i (0, 0)).1 * (P.reverse.getD ((i + 1) % (m + 1)) (0, 0)).2
          - (P.reverse.getD ((i + 1) % (m + 1)) (0, 0)).1 * (P.reverse.getD i (0, 0)).2))
        = ∑ i in Finset.range m,
        ((P.getD ((m - 1 - i) + 1) (0, 0)).1 * (P.getD (m - 1 - i) (0, 0)).2
          - (P.getD (m - 1 - i) (0, 0)).1 * (P.getD ((m - 1 - i) + 1) (0, 0)).2) := by
      apply Finset.sum_congr rfl
      intro i hi
      have him : i < m := Finset.mem_range.1 hi
      have hmod : (i + 1) % (m + 1) = i + 1 := Nat.mod_eq_of_lt (by omega)
      rw [hmod, hrev i (by omega), hrev (i + 1) (by omega)]
      have e1 : m - i = (m - 1 - i) + 1 := by omega
      have e2 : m - (i + 1) = m - 1 - i := by omega
      rw [e1, e2]
    rw [hbulk, Finset.sum_range_reflect
      (fun j => ((P.getD (j + 1) (0, 0)).1 * (P.getD j (0, 0)).2
        - (P.getD j (0, 0)).1 * (P.getD (j + 1) (0, 0)).2)) m]
    have hmod2 : (m + 1) % (m + 1) = 0 := Nat.mod_self _
    rw [hmod2]
    rw [hrev m (by omega)]
    have hmm : m - m = 0 := by omega
    rw [hmm, hrev 0 (by omega)]
    have hm0 : m - 0 = m := by omega
    rw [hm0]
    have hbulkP : (∑ i in Finset.range m,
        ((P.getD i (0, 0)).1 * (P.getD ((i + 1) % (m + 1)) (0, 0)).2
          - (P.getD ((i + 1) % (m + 1)) (0, 0)).1 * (P.getD i (0, 0)).2))
        = ∑ i in Finset.range m,
        ((P.getD i (0, 0)).1 * (P.getD (i + 1) (0, 0)).2
          - (P.getD (i + 1) (0, 0)).1 * (P.getD i (0, 0)).2) := by
      apply Finset.sum_congr rfl
      intro i hi
      have him : i < m := Finset.mem_range.1 hi
      rw [Nat.mod_eq_of_lt (by omega)]
    rw [hbulkP]
    have hneg : (∑ i in Finset.range m,
        ((P.getD (i + 1) (0, 0)).1 * (P.getD i (0, 0)).2
          - (P.getD i (0, 0)).1 * (P.getD (i + 1) (0, 0)).2))
        = - ∑ i in Finset.range m,
        ((P.getD i (0, 0)).1 * (P.getD (i + 1) (0, 0)).2
          - (P.getD (i + 1) (0, 0)).1 * (P.getD i (0, 0)).2) := by
      rw [← Finset.sum_neg_distrib]
      apply Finset.sum_congr rfl
      intro i _
      ring
    rw [hneg]
    ring

/-- C8: `calculateArea` is winding-order independent
(`area(P) = area(reverse P)`), always non-negative, and returns 0 for lists of
fewer than 3 points. -/
theorem calculateArea_winding_independent (P : List (ℚ × ℚ)) :
    calculateArea P = calculateArea P.reverse ∧ 0 ≤ calculateArea P ∧
      (P.length < 3 → calculateArea P = 0) := by
  refine ⟨?_, ?_, ?_⟩
  · unfold calculateArea
    rw [List.length_reverse]
    split
    · rfl
    · rw [shoelaceSum_reverse, ratAbs_eq_abs, ratAbs_eq_abs, neg_div, abs_neg]
  · unfold calculateArea
    split
    · exact le_refl 0
    · rw [ratAbs_eq_abs]
      exact abs_nonneg _
  · intro h
    unfold calculateArea
    rw [if_pos h]

/-- Witness for C8 at a concrete one-point polygon. -/
theorem calculateArea_winding_independent_witness :
    [((5 : ℚ), (7 : ℚ))].length < 3 ∧ calculateArea [((5 : ℚ), (7 : ℚ))] = 0 :=
  ⟨by decide, (calculateArea_winding_independent [((5 : ℚ), (7 : ℚ))]).2.2 (by decide)⟩

theorem calculateArea_moved_rect :
    calculateArea [((100 : ℚ), (100 : ℚ)), (6000, 0), (6000, 4000), (0, 4000)] =
      23500000 := by
  simp only [calculateArea, shoelaceSum]
  rw [if_neg (by norm_num)]
  rw [ratAbs_eq_abs]
  norm_num [Finset.sum_range_succ, List.getD_cons_zero, List.getD_cons_succ]

/-- C4 counterexample: a committed move of vertex `v1` of the rectangle room
leaves the stored `area` field at its old value 24000000 mm² while the
shoelace area over the current vertex positions is 23500000 mm² — the stored
field is a stale cache. -/
theorem stored_area_stale_after_moveVertex :
    (executeCommand exCmdMoveV1 exStateRect).rooms.lookup "r1" = some exRoomRect ∧
      calculateRoomArea exRoomRect (executeCommand exCmdMoveV1 exStateRect).vertices ≠
        exRoomRect.area := by
  refine ⟨by decide, ?_⟩
  have hpoly : exRoomRect.vertices.filterMap (fun vId =>
      ((executeCommand exCmdMoveV1 exStateRect).vertices.lookup vId).map
        fun v => (v.x, v.y)) =
      [((100 : ℚ), (100 : ℚ)), (6000, 0), (6000, 4000), (0, 4000)] := by
    decide
  have harea : calculateRoomArea exRoomRect
      (executeCommand exCmdMoveV1 exStateRect).vertices = 23500000 := by
    simp only [calculateRoomArea]
    rw [if_neg (by decide), hpoly, if_neg (by norm_num), calculateArea_moved_rect]
  rw [harea]
  decide

theorem moveVertex_leaves_rooms_unchanged (vId : EntId) (o n : Vertex)
    (s : EditorState) :
    ((Command.moveVertex vId o n).exec s).rooms = s.rooms := by
  simp only [Command.exec]
  cases s.vertices.lookup vId <;> rfl

theorem recalculateAllRoomAreas_fresh (rooms : List (EntId × Room))
    (vertices : Table Vertex) (e : EntId × Room)
    (he : e ∈ recalculateAllRoomAreas rooms vertices) :
    e.2.area = calculateRoomArea e.2 vertices := by
  unfold recalculateAllRoomAreas at he
  rw [List.mem_map] at he
  obtain ⟨⟨k, room⟩, _hmem, heq⟩ := he
  subst heq
  simp only
  unfold calculateRoomArea
  rfl

/-- C4 (amended): commands do not maintain the stored `area` field — a
committed vertex move leaves the rooms table (hence every stored `area`)
unchanged — and the recomputation path `recalculateAllRoomAreas` is what
restores the invariant: every room it outputs carries exactly the shoelace
area recomputed from the current vertex table. -/
theorem room_area_snapshot_semantics :
    (∀ (vId : EntId) (o n : Vertex) (s : EditorState),
      ((Command.moveVertex vId o n).exec s).rooms = s.rooms) ∧
    (∀ (rooms : List (EntId × Room)) (vertices : Table Vertex) (e : EntId × Room),
      e ∈ recalculateAllRoomAreas rooms vertices →
      e.2.area = calculateRoomArea e.2 vertices) :=
  ⟨moveVertex_leaves_rooms_unchanged, recalculateAllRoomAreas_fresh⟩

/-- Witness for the C4 amended theorem: a concrete recalculated room list. -/
theorem room_area_snapshot_semantics_witness :
    (("r1", { exRoomRect with area := calculateRoomArea exRoomRect exStateRect.vertices })
        ∈ recalculateAllRoomAreas [("r1", exRoomRect)] exStateRect.vertices) ∧
      ({ exRoomRect with area := calculateRoomArea exRoomRect exStateRect.vertices } : Room).area =
        calculateRoomArea ({ exRoomRect with area := calculateRoomArea exRoomRect exStateRect.vertices } : Room) exStateRect.vertices :=
  ⟨List.mem_singleton.2 rfl,
    room_area_snapshot_semantics.2 [("r1", exRoomRect)] exStateRect.vertices _
      (List.mem_singleton.2 rfl)⟩

theorem wallLength_after_shorten :
    calculateWallLength exWallW1 (executeCommand exCmdShorten exStateDoor).vertices =
      1000 := by
  have h1 : (executeCommand exCmdShorten exStateDoor).vertices.lookup "v1" =
      some ⟨0, 0⟩ := by decide
  have h2 : (executeCommand exCmdShorten exStateDoor).vertices.lookup "v2" =
      some ⟨1000, 0⟩ := by decide
  simp only [calculateWallLength, exWallW1]
  rw [h1, h2]
  show distance (Vertex.pt ⟨0, 0⟩) (Vertex.pt ⟨1000, 0⟩) = 1000
  unfold distance Vertex.pt
  push_cast
  norm_num
  rw [show (1000000 : ℝ) = 1000 ^ 2 by norm_num]
  rw [Real.sqrt_sq (by norm_num)]

/-- C5 counterexample: committing a vertex move that shortens wall `w1` to
length 1000 mm leaves the anchored door `d1` at `offsetFromStart = 1500`, so
`0 ≤ offsetFromStart ≤ wallLength` is violated after a committed command. -/
theorem offset_invariant_broken_after_commit :
    (executeCommand exCmdShorten exStateDoor).instances.lookup "d1" = some exInstD1 ∧
      exInstD1.constraint = some ⟨some ⟨"wall", "w1"⟩, 1500⟩ ∧
      (executeCommand exCmdShorten exStateDoor).walls.lookup "w1" = some exWallW1 ∧
      calculateWallLength exWallW1 (executeCommand exCmdShorten exStateDoor).vertices =
        1000 ∧
      ¬ ((1500 : ℝ) ≤ 1000) := by
  refine ⟨by decide, by decide, by decide, wallLength_after_shorten, by norm_num⟩

/-- C5 (amended): the commands do not enforce the offset invariant (the
counterexample breaks it with a committed vertex move, and
`MoveInstanceCommand` stores its new offset verbatim); what the code provides
is `clampOffsetToWall`, which — whenever the instance width is non-negative
and fits the wall — returns an offset inside
`[instanceWidth/2, wallLength - instanceWidth/2] ⊆ [0, wallLength]`. -/
theorem clampOffsetToWall_bounds (offset wallLength instanceWidth : ℝ)
    (h0 : 0 ≤ instanceWidth) (hwl : instanceWidth ≤ wallLength) :
    0 ≤ clampOffsetToWall offset wallLength instanceWidth ∧
      instanceWidth / 2 ≤ clampOffsetToWall offset wallLength instanceWidth ∧
      clampOffsetToWall offset wallLength instanceWidth ≤
        wallLength - instanceWidth / 2 ∧
      clampOffsetToWall offset wallLength instanceWidth ≤ wallLength := by
  unfold clampOffsetToWall
  have hmin1 : min (wallLength - instanceWidth / 2) offset ≤
      wallLength - instanceWidth / 2 := min_le_left _ _
  have h1 : instanceWidth / 2 ≤
      max (instanceWidth / 2) (min (wallLength - instanceWidth / 2) offset) :=
    le_max_left _ _
  have h2 : max (instanceWidth / 2) (min (wallLength - instanceWidth / 2) offset) ≤
      wallLength - instanceWidth / 2 := max_le (by linarith) hmin1
  exact ⟨by linarith, h1, h2, by linarith⟩

/-- Witness for the C5 amended theorem: clamping an offset of 9000 mm onto a
6000 mm wall for a 900 mm wide instance. -/
theorem clampOffsetToWall_bounds_witness :
    (0 : ℝ) ≤ 900 ∧ (900 : ℝ) ≤ 6000 ∧
      (0 ≤ clampOffsetToWall 9000 6000 900 ∧
        (900 : ℝ) / 2 ≤ clampOffsetToWall 9000 6000 900 ∧
        clampOffsetToWall 9000 6000 900 ≤ 6000 - 900 / 2 ∧
        clampOffsetToWall 9000 6000 900 ≤ 6000) :=
  ⟨by norm_num, by norm_num,
    clampOffsetToWall_bounds 9000 6000 900 (by norm_num) (by norm_num)⟩

theorem distance_door_wall :
    distance (Vertex.pt ⟨0, 0⟩) (Vertex.pt ⟨6000, 0⟩) = 6000 := by
  unfold distance Vertex.pt
  push_cast
  norm_num
  rw [show (36000000 : ℝ) = 6000 ^ 2 by norm_num]
  rw [Real.sqrt_sq (by norm_num)]

/-- C6: for an anchored instance whose wall and both wall endpoints exist,
`calculateInstancePosition` returns the linear interpolation
`vStart + (offsetFromStart / wallLength) · (vEnd - vStart)` with rotation
`atan2 (dy) (dx)` when the wall length is nonzero, and the start vertex with
rotation 0 when it is zero; in particular the door `d1` at
`offsetFromStart = 1500` on the wall from `(0,0)` to `(6000,0)` is placed at
`(1500, 0)` with rotation 0. -/
theorem instance_pose_formula :
    (∀ (walls : Table Wall) (vertices : Table Vertex) (inst : Instc) (c : Constr)
      (att : AttachTo) (wall : Wall) (vS vE : Vertex),
      inst.constraint = some c → c.attachTo = some att → att.kind = "wall" →
      walls.lookup att.id = some wall →
      vertices.lookup wall.vStart = some vS →
      vertices.lookup wall.vEnd = some vE →
      (distance vS.pt vE.pt ≠ 0 →
        calculateInstancePosition inst walls vertices =
          ⟨(vS.pt.1 + (c.offsetFromStart : ℝ) / distance vS.pt vE.pt * (vE.pt.1 - vS.pt.1),
            vS.pt.2 + (c.offsetFromStart : ℝ) / distance vS.pt vE.pt * (vE.pt.2 - vS.pt.2)),
            atan2 (vE.pt.2 - vS.pt.2) (vE.pt.1 - vS.pt.1)⟩) ∧
      (distance vS.pt vE.pt = 0 →
        calculateInstancePosition inst walls vertices = ⟨vS.pt, 0⟩)) ∧
    calculateInstancePosition exInstD1 exStateDoor.walls exStateDoor.vertices =
      ⟨(1500, 0), 0⟩ := by
  have hgen : ∀ (walls : Table Wall) (vertices : Table Vertex) (inst : Instc)
      (c : Constr) (att : AttachTo) (wall : Wall) (vS vE : Vertex),
      inst.constraint = some c → c.attachTo = some att → att.kind = "wall" →
      walls.lookup att.id = some wall →
      vertices.lookup wall.vStart = some vS →
      vertices.lookup wall.vEnd = some vE →
      (distance vS.pt vE.pt ≠ 0 →
        calculateInstancePosition inst walls vertices =
          ⟨(vS.pt.1 + (c.offsetFromStart : ℝ) / distance vS.pt vE.pt * (vE.pt.1 - vS.pt.1),
            vS.pt.2 + (c.offsetFromStart : ℝ) / distance vS.pt vE.pt * (vE.pt.2 - vS.pt.2)),
            atan2 (vE.pt.2 - vS.pt.2) (vE.pt.1 - vS.pt.1)⟩) ∧
      (distance vS.pt vE.pt = 0 →
        calculateInstancePosition inst walls vertices = ⟨vS.pt, 0⟩) := by
    intro walls vertices inst c att wall vS vE hC hAtt hKind hWall hS hE
    simp only [calculateInstancePosition, hC, hAtt]
    rw [if_pos hKind]
    simp only [hWall, hS, hE]
    constructor
    · intro hne
      rw [if_neg hne]
      simp only [angleBetweenPoints]
    · intro hz
      rw [if_pos hz]
  refine ⟨hgen, ?_⟩
  have hd1 := hgen exStateDoor.walls exStateDoor.vertices exInstD1
    ⟨some ⟨"wall", "w1"⟩, 1500⟩ ⟨"wall", "w1"⟩ exWallW1 ⟨0, 0⟩ ⟨6000, 0⟩
    (by decide) (by decide) (by decide) (by decide) (by decide) (by decide)
  have h1 := hd1.1 (by
    rw [distance_door_wall]
    norm_num)
  rw [h1, distance_door_wall]
  have hatan : atan2 ((Vertex.pt ⟨6000, 0⟩).2 - (Vertex.pt ⟨0, 0⟩).2)
      ((Vertex.pt ⟨6000, 0⟩).1 - (Vertex.pt ⟨0, 0⟩).1) = 0 := by
    unfold atan2 Vertex.pt
    push_cast
    norm_num
  rw [hatan]
  unfold Vertex.pt
  push_cast
  norm_num

/-- Witness for C6: the general branch formula applied at the concrete door
scenario, together with the scenario equality itself. -/
theorem instance_pose_formula_witness :
    calculateInstancePosition exInstD1 exStateDoor.walls exStateDoor.vertices =
        ⟨((Vertex.pt ⟨0, 0⟩).1 +
            ((1500 : ℚ) : ℝ) / distance (Vertex.pt ⟨0, 0⟩) (Vertex.pt ⟨6000, 0⟩) *
              ((Vertex.pt ⟨6000, 0⟩).1 - (Vertex.pt ⟨0, 0⟩).1),
          (Vertex.pt ⟨0, 0⟩).2 +
            ((1500 : ℚ) : ℝ) / distance (Vertex.pt ⟨0, 0⟩) (Vertex.pt ⟨6000, 0⟩) *
              ((Vertex.pt ⟨6000, 0⟩).2 - (Vertex.pt ⟨0, 0⟩).2)),
          atan2 ((Vertex.pt ⟨6000, 0⟩).2 - (Vertex.pt ⟨0, 0⟩).2)
            ((Vertex.pt ⟨6000, 0⟩).1 - (Vertex.pt ⟨0, 0⟩).1)⟩ ∧
      calculateInstancePosition exInstD1 exStateDoor.walls exStateDoor.vertices =
        ⟨(1500, 0), 0⟩ :=
  ⟨(instance_pose_formula.1 exStateDoor.walls exStateDoor.vertices exInstD1
      ⟨some ⟨"wall", "w1"⟩, 1500⟩ ⟨"wall", "w1"⟩ exWallW1 ⟨0, 0⟩ ⟨6000, 0⟩
      (by decide) (by decide) (by decide) (by decide) (by decide) (by decide)).1
      (by
        rw [distance_door_wall]
        norm_num),
    instance_pose_formula.2⟩

theorem snapFold_spec (q : ℝ × ℝ) (th : ℝ) :
    ∀ (ts : List SnapTarget) (acc : Option (SnapTarget × ℝ)) (p : SnapTarget × ℝ),
      snapFold q th ts acc = some p →
      (acc = some p ∧ ∀ u ∈ ts, distance q u.point < th → p.2 ≤ distance q u.point) ∨
      (p.2 = distance q p.1.point ∧ p.2 < th ∧
        (∀ m : SnapTarget × ℝ, acc = some m → p.2 < m.2) ∧
        ∃ l1 l2, ts = l1 ++ p.1 :: l2 ∧
          (∀ u ∈ l1, p.2 < distance q u.point) ∧
          (∀ u ∈ l2, distance q u.point < th → p.2 ≤ distance q u.point)) := by
  intro ts
  induction ts with
  | nil =>
    intro acc p h
    simp only [snapFold] at h
    exact Or.inl ⟨h, by simp⟩
  | cons t rest ih =>
    intro acc p h
    simp only [snapFold] at h
    by_cases hcond : distance q t.point < th ∧
        ∀ m ∈ acc, distance q t.point < m.2
    · rw [if_pos hcond] at h
      rcases ih (some (t, distance q t.point)) p h with ⟨hpe, hmin⟩ | hR
      · have hp : p = (t, distance q t.point) := (Option.some.injEq _ _ ▸ hpe.symm)
        right
        refine ⟨by rw [hp], by rw [hp]; exact hcond.1, ?_, [], rest, ?_, by simp, ?_⟩
        · intro m hm
          rw [hp]
          exact hcond.2 m (by simp [hm])
        · rw [hp]
          rfl
        · intro u hu hdu
          exact hmin u hu hdu
      · obtain ⟨hdist, hth, hlt, l1, l2, hsplit, hl1, hl2⟩ := hR
        right
        refine ⟨hdist, hth, ?_, t :: l1, l2, by rw [hsplit]; rfl, ?_, hl2⟩
        · intro m hm
          have h1 : p.2 < distance q t.point := hlt (t, distance q t.point) rfl
          exact lt_trans h1 (hcond.2 m (by simp [hm]))
        · intro u hu
          rcases List.mem_cons.1 hu with rfl | hu2
          · exact hlt (u, distance q u.point) rfl
          · exact hl1 u hu2
    · rw [if_neg hcond] at h
      push_neg at hcond
      rcases ih acc p h with ⟨hpe, hmin⟩ | hR
      · left
        refine ⟨hpe, ?_⟩
        intro u hu hdu
        rcases List.mem_cons.1 hu with rfl | hu2
        · obtain ⟨m, hm, hmle⟩ := hcond hdu
          have : m = p := by
            rw [Option.mem_def, hpe] at hm
            exact (Option.some.inj hm).symm
          rw [← this]
          exact hmle
        · exact hmin u hu2 hdu
      · obtain ⟨hdist, hth, hlt, l1, l2, hsplit, hl1, hl2⟩ := hR
        right
        refine ⟨hdist, hth, hlt, t :: l1, l2, by rw [hsplit]; rfl, ?_, hl2⟩
        intro u hu
        rcases List.mem_cons.1 hu with rfl | hu2
        · by_cases hdu : distance q u.point < th
          · obtain ⟨m, hm, hmle⟩ := hcond hdu
            have := hlt m (Option.mem_def.1 hm)
            linarith
          · linarith [not_lt.1 hdu]
        · exact hl1 u hu2

theorem snapFold_eq_none (q : ℝ × ℝ) (th : ℝ) :
    ∀ (ts : List SnapTarget) (acc : Option (SnapTarget × ℝ)),
      snapFold q th ts acc = none ↔
        acc = none ∧ ∀ u ∈ ts, ¬ distance q u.point < th := by
  intro ts
  induction ts with
  | nil =>
    intro acc
    simp [snapFold]
  | cons t rest ih =>
    intro acc
    simp only [snapFold]
    by_cases hcond : distance q t.point < th ∧
        ∀ m ∈ acc, distance q t.point < m.2
    · rw [if_pos hcond, ih]
      constructor
      · rintro ⟨hnone, -⟩
        exact absurd hnone (by simp)
      · rintro ⟨hacc, hall⟩
        exact absurd (hall t (List.mem_cons_self t rest)) (not_not.2 hcond.1)
    · rw [if_neg hcond, ih]
      constructor
      · rintro ⟨hacc, hall⟩
        subst hacc
        refine ⟨rfl, ?_⟩
        intro u hu
        rcases List.mem_cons.1 hu with rfl | hu2
        · intro hdu
          exact hcond ⟨hdu, by simp⟩
        · exact hall u hu2
      · rintro ⟨hacc, hall⟩
        exact ⟨hacc, fun u hu => hall u (List.mem_cons_of_mem t hu)⟩

/-- C9: `findSnapPoint` returns a target strictly within the threshold whose
distance is minimal over the whole list, and among equal minima the first
encountered wins (every earlier target is strictly farther); it returns none
exactly when no target lies strictly within the threshold. -/
theorem findSnapPoint_spec (q : ℝ × ℝ) (ts : List SnapTarget) (th : ℝ) :
    (∀ t : SnapTarget, findSnapPoint q ts th = some t →
      distance q t.point < th ∧
        (∀ u ∈ ts, distance q t.point ≤ distance q u.point) ∧
        ∃ l1 l2, ts = l1 ++ t :: l2 ∧
          ∀ u ∈ l1, distance q t.point < distance q u.point) ∧
      (findSnapPoint q ts th = none ↔ ∀ u ∈ ts, ¬ distance q u.point < th) := by
  constructor
  · intro t ht
    unfold findSnapPoint at ht
    rw [Option.map_eq_some'] at ht
    obtain ⟨p, hp, hfst⟩ := ht
    rcases snapFold_spec q th ts none p hp with ⟨hpe, -⟩ | hR
    · exact absurd hpe (by simp)
    · obtain ⟨hdist, hth, -, l1, l2, hsplit, hl1, hl2⟩ := hR
      subst hfst
      refine ⟨hdist ▸ hth, ?_, l1, l2, hsplit, ?_⟩
      · intro u hu
        rw [hsplit] at hu
        rcases List.mem_append.1 hu with hu1 | hu2
        · have := hl1 u hu1
          linarith [hdist ▸ this]
        · rcases List.mem_cons.1 hu2 with rfl | hu3
          · exact le_refl _
          · by_cases hdu : distance q u.point < th
            · have := hl2 u hu3 hdu
              linarith [hdist ▸ this]
            · have h1 : distance q p.1.point < th := hdist ▸ hth
              linarith [not_lt.1 hdu]
      · intro u hu
        have := hl1 u hu
        linarith [hdist ▸ this]
  · unfold findSnapPoint
    rw [Option.map_eq_none']
    rw [snapFold_eq_none q th ts none]
    simp

/-- Witness for C9: one target at distance 5 and threshold 6 — the scan
returns that target, strictly within the threshold. -/
theorem findSnapPoint_spec_witness :
    findSnapPoint (0, 0) [⟨"endpoint", (3, 4), "wall", "w1"⟩] 6 =
        some ⟨"endpoint", (3, 4), "wall", "w1"⟩ ∧
      distance (0, 0) (3, 4) < 6 := by
  have hdist : distance ((0 : ℝ), (0 : ℝ)) (3, 4) = 5 := by
    unfold distance
    norm_num
    rw [show (25 : ℝ) = 5 ^ 2 by norm_num]
    rw [Real.sqrt_sq (by norm_num)]
  have hres : findSnapPoint (0, 0) [⟨"endpoint", (3, 4), "wall", "w1"⟩] 6 =
      some ⟨"endpoint", (3, 4), "wall", "w1"⟩ := by
    unfold findSnapPoint
    simp only [snapFold]
    rw [if_pos (by
      constructor
      · show distance (0, 0) (⟨"endpoint", ((3 : ℝ), (4 : ℝ)), "wall", "w1"⟩ :
          SnapTarget).point < 6
        rw [show (⟨"endpoint", ((3 : ℝ), (4 : ℝ)), "wall", "w1"⟩ :
          SnapTarget).point = ((3 : ℝ), (4 : ℝ)) from rfl, hdist]
        norm_num
      · simp)]
    rfl
  refine ⟨hres, ?_⟩
  have := (findSnapPoint_spec (0, 0) [⟨"endpoint", (3, 4), "wall", "w1"⟩] 6).1
    ⟨"endpoint", (3, 4), "wall", "w1"⟩ hres
  exact this.1
